import Mathlib

/-!
Verification of the putconf file-set resolution and reconciliation engine.

The definitions below are a shallow embedding of `src/putconf/PutconfSource.py`.
Filesystem paths are modelled as lists of components (`os.path.join` becomes
list append, `os.path.dirname` becomes `List.dropLast`), and a filesystem is an
association list from absolute paths to entries.  Directories carry a
readability flag so that `os.scandir` failures (the only scan-time errors) can
be expressed.  Stateful operations thread the filesystem explicitly and return
`FS × Option String`, where `some msg` plays the role of a raised
`RuntimeError`; the state component is the filesystem at the moment of the
raise, so frame properties can be stated for failing runs as well.
-/

namespace Putconf


/-- A filesystem path, as a list of components. -/
abbrev Path := List String

/-- Boolean prefix test on paths: `isPre a d` iff `a` is a (not necessarily
strict) ancestor-or-self of `d`. -/
def isPre : Path → Path → Bool
  | [], _ => true
  | _ :: _, [] => false
  | a :: as, d :: ds => a == d && isPre as ds

/-- A filesystem entry: a regular file with contents, or a directory with a
readability flag (`os.scandir` fails on unreadable directories). -/
inductive Entry where
  | file (content : String)
  | dir (readable : Bool)
deriving DecidableEq

/-- A filesystem: an association list from absolute paths to entries. -/
abbrev FS := List (Path × Entry)

/-- Association-list lookup (the first binding wins). -/
def FS.lookup (fs : FS) (p : Path) : Option Entry :=
  match fs with
  | [] => none
  | (q, e) :: rest => if q = p then some e else FS.lookup rest p

/-- Replace the binding for `p`, or append a fresh one at the end. -/
def FS.set (fs : FS) (p : Path) (e : Entry) : FS :=
  match fs with
  | [] => [(p, e)]
  | (q, e') :: rest => if q = p then (p, e) :: rest else (q, e') :: FS.set rest p e

/-- Model of `os.path.isdir`. -/
def FS.isdir (fs : FS) (p : Path) : Bool :=
  match fs.lookup p with
  | some (.dir _) => true
  | _ => false

/-- Model of `os.path.exists`. -/
def FS.existsPath (fs : FS) (p : Path) : Bool :=
  (fs.lookup p).isSome

/-- Well-formedness: no duplicate path keys. -/
def FS.WF (fs : FS) : Prop :=
  (fs.map Prod.fst).Nodup

/-- The names of the children of directory `p`, in filesystem order (models the
enumeration order of `os.scandir`). -/
def FS.childNames (fs : FS) (p : Path) : List String :=
  (fs.filter (fun q => q.1.dropLast == p && !q.1.isEmpty)).map
    (fun q => q.1.getLastD "")

/-- Model of `os.scandir`: lists child names, failing on anything that is not a
readable directory (`FileNotFoundError`, `NotADirectoryError`,
`PermissionError`). -/
def FS.scandir (fs : FS) (p : Path) : Except String (List String) :=
  match fs.lookup p with
  | some (.dir true) => .ok (fs.childNames p)
  | _ => .error ("scandir failed: " ++ String.intercalate "/" p)

/-! ### Tree scanner (`_scan_dir`, lines 73-99) -/

/-- One `os.scandir` pass over `rel_to ++ d`, partitioning the children into
files and subdirectories, returned as paths relative to `rel_to` (the loop body
of `_scan_dir`). -/
def scanChildren (fs : FS) (rel_to d : Path) : Except String (List Path × List Path) :=
  match fs.scandir (rel_to ++ d) with
  | .error e => .error e
  | .ok names =>
    .ok (names.filterMap (fun n => if fs.isdir (rel_to ++ d ++ [n]) then none else some (d ++ [n])),
         names.filterMap (fun n => if fs.isdir (rel_to ++ d ++ [n]) then some (d ++ [n]) else none))

/-- The growable-worklist loop of `_scan_dir`: `done` is the processed prefix of
the subdirectory list, `todo` the unprocessed suffix; the Python list `subdirs`
is `done ++ todo` throughout and directories are processed in append order.
Fuel only bounds the iteration count; with the fuel supplied by `scanDir` it is
never exhausted on a well-formed filesystem. -/
def scanLoop (fs : FS) (rel_to : Path) :
    Nat → List Path → List Path → List Path → Except String (List Path × List Path)
  | 0, files, done, todo => .ok (files, done ++ todo)
  | _ + 1, files, done, [] => .ok (files, done ++ [])
  | n + 1, files, done, d :: rest =>
    match scanChildren fs rel_to d with
    | .error e => .error e
    | .ok (cf, cd) => scanLoop fs rel_to n (files ++ cf) (done ++ [d]) (rest ++ cd)

/-- Model of `_scan_dir(dir_path, rel_to)`: recursively scan a directory,
returning all files and all subdirectories as paths relative to `rel_to`,
subdirectories in parent-before-child (breadth-first append) order. -/
def scanDir (fs : FS) (dir_path rel_to : Path) : Except String (List Path × List Path) :=
  match scanChildren fs rel_to dir_path with
  | .error e => .error e
  | .ok (f0, d0) => scanLoop fs rel_to (fs.length + 1) f0 [] d0

/-! ### Path mapper (`_prepend_dot`, and the dot convention of
`_scan_from_list` lines 202-209 / `_path_in_src` lines 300-304) -/

/-- Model of `_prepend_dot`: `"." + str(path)` prepends a dot to the first
component of a relative path. -/
def prependDot : Path → Path
  | [] => ["."]
  | h :: t => ("." ++ h) :: t

/-- Python's `str.startswith`, computed over the character lists (the library
`String.startsWith` does not reduce inside the kernel). -/
def charsPre : List Char → List Char → Bool
  | [], _ => true
  | _ :: _, [] => false
  | a :: as, b :: bs => a == b && charsPre as bs

/-- Whether string `s` starts with `pre` (Python `s.startswith(pre)`). -/
def strStartsWith (s pre : String) : Bool :=
  charsPre pre.data s.data

/-- Whether the string form of a relative path starts with `"."`; this is the
`x.startswith(".")` test of `_scan_from_list`. -/
def relStartsWithDot : Path → Bool
  | [] => false
  | h :: _ => strStartsWith h "."

/-- Model of the string slice `x[1:]` applied to a relative path whose first
component is nonempty: drop the first character of the leading component (a
leading component of exactly one character disappears, matching the way
`os.path.join` collapses an empty component). -/
def stripLeadDot : Path → Path
  | [] => []
  | h :: t => if h.length ≤ 1 then t else (h.drop 1) :: t

/-- The resolution-time source mapping of `_scan_from_list` (lines 202-209):
a path whose leading component begins with a dot maps below
`work_dir/.dotfiles` with the dot stripped, anything else below `work_dir`
unchanged. -/
def srcPathOfRel (work_dir : Path) (x : Path) : Path :=
  if relStartsWithDot x then work_dir ++ [".dotfiles"] ++ stripLeadDot x
  else work_dir ++ x

/-- Whether the string form of a relative path starts with the given string
prefix; `pathStrStartsWith p ""` embeds the `rel_to_target.startswith("")`
test of `_path_in_src`, which is true for every path. -/
def pathStrStartsWith (p : Path) (s : String) : Bool :=
  strStartsWith (String.intercalate "/" p) s

/-- Model of `PutconfSource._path_in_src` (lines 300-304), exactly as written:
the guard is `rel_to_target.startswith("")`, so the `.dotfiles` branch is taken
for every input and the first character of the path is always stripped. -/
def pathInSrc (work_dir : Path) (rel_to_target : Path) : Path :=
  if pathStrStartsWith rel_to_target "" then
    work_dir ++ [".dotfiles"] ++ stripLeadDot rel_to_target
  else
    work_dir ++ rel_to_target

/-! ### File-set resolver (`_scan_contents`, `_scan_from_list`, `_scan_all`) -/

/-- The resolved file set held by a `PutconfSource` (its five scan fields). -/
structure FileSet where
  src_files : List (Path × Path)
  put_subdirs : List Path
  explicit_subdirs : List Path
  sync_new : List (Path × Path)
  has_explicit_files : Bool
deriving DecidableEq

instance : Inhabited FileSet := ⟨⟨[], [], [], [], false⟩⟩

/-- The ancestor walk shared by `_scan_from_list` (lines 211-216) and
`sync_from_target` (lines 323-328): starting from `d = dirname x`, climb
dirname links, collecting every directory not yet in `sset` (deepest first)
and adding it to the set, stopping at the root or at a directory already
seen.  Returns the collected chain and the extended set.  Fuel is the length
of `d`, which strictly bounds the climb. -/
def ancWalkF : Nat → List Path → Path → List Path × List Path
  | 0, sset, _ => ([], sset)
  | n + 1, sset, d =>
    if d = [] ∨ d ∈ sset then ([], sset)
    else
      let r := ancWalkF n (d :: sset) d.dropLast
      (d :: r.1, r.2)

/-- The ancestor walk with enough fuel to terminate naturally. -/
def ancWalk (sset : List Path) (d : Path) : List Path × List Path :=
  ancWalkF (d.length + 1) sset d

/-- One iteration of the `for x in file_list` loop of `_scan_from_list`
(lines 202-227): append newly seen ancestors of `x` to `put_subdirs`
(shallowest first, via the reversed parents list), then classify `x` by what
its mapped source path is. -/
def scanFromListStep (fs : FS) (work_dir : Path) (st : FileSet × List Path) (x : Path) :
    FileSet × List Path :=
  let S := st.1
  let src_path := srcPathOfRel work_dir x
  let w := ancWalk st.2 x.dropLast
  let S := { S with put_subdirs := S.put_subdirs ++ w.1.reverse }
  if fs.isdir src_path then
    ({ S with explicit_subdirs := S.explicit_subdirs ++ [x] }, w.2)
  else if fs.existsPath src_path then
    ({ S with src_files := S.src_files ++ [(src_path, x)] }, w.2)
  else
    ({ S with sync_new := S.sync_new ++ [(src_path, x)] }, w.2)

/-- Model of `PutconfSource._scan_from_list` (lines 190-227). -/
def scanFromList (fs : FS) (work_dir : Path) (file_list : List Path) : FileSet :=
  (file_list.foldl (scanFromListStep fs work_dir) (⟨[], [], [], [], true⟩, [])).1

/-- The `for x in subdirs` loop of `_scan_all` (lines 251-254): scan each
top-level subdirectory and fold its files and directories into the
accumulators. -/
def scanAllLoop (fs : FS) (src : Path) (acc : List (Path × Path) × List Path) :
    List String → Except String (List (Path × Path) × List Path)
  | [] => .ok acc
  | n :: ns =>
    match scanDir fs [n] src with
    | .error e => .error e
    | .ok (fls, dls) =>
      scanAllLoop fs src (acc.1 ++ fls.map (fun f => (src ++ f, f)), acc.2 ++ dls) ns

/-- Model of `PutconfSource._scan_all` (lines 229-260): enumerate the source
root, treat a directory literally named `.dotfiles` specially, ignore other
dot-named entries, recursively scan the remaining subdirectories, and finally
fold the `.dotfiles` contents in with a dot prepended to their first
component. -/
def scanAll (fs : FS) (src : Path) : Except String FileSet :=
  match fs.scandir src with
  | .error e => .error e
  | .ok names =>
    let subdirs := names.filter (fun n => !(strStartsWith n ".") && fs.isdir (src ++ [n]))
    let files0 := names.filter (fun n => !(strStartsWith n ".") && !(fs.isdir (src ++ [n])))
    match scanAllLoop fs src (files0.map (fun n => (src ++ [n], [n])), subdirs.map (fun n => [n])) subdirs with
    | .error e => .error e
    | .ok (sf, pd) =>
      if names.any (fun n => n == ".dotfiles") && fs.isdir (src ++ [".dotfiles"]) then
        match scanDir fs [] (src ++ [".dotfiles"]) with
        | .error e => .error e
        | .ok (dfs, dds) =>
          .ok ⟨sf ++ dfs.map (fun f => (src ++ [".dotfiles"] ++ f, prependDot f)),
               pd ++ dds.map prependDot, [], [], false⟩
      else .ok ⟨sf, pd, [], [], false⟩

/-- Model of `PutconfSource._scan_contents` (lines 182-188). -/
def scanContents (fs : FS) (work_dir : Path) (file_list : List Path) : Except String FileSet :=
  match file_list with
  | [] => scanAll fs work_dir
  | _ => .ok (scanFromList fs work_dir file_list)

/-- Whether an `Except` value is an error. -/
def isErr : Except String α → Bool
  | .error _ => true
  | .ok _ => false

/-- Model of the end of `PutconfSource.__init__` (lines 178-180), exactly as
written: `try: self._scan_contents(file_list)` followed by
`except Exception as e: RuntimeError("Error scanning source: %s" % e)` - the
`RuntimeError` is constructed but never raised, so a scan failure is caught and
discarded and `__init__` returns normally; `some` carries a completed file set
and `none` stands for the object whose scan fields were left unset or partial
by the interrupted scan. -/
def initScanContents (fs : FS) (work_dir : Path) (file_list : List Path) :
    Except String (Option FileSet) :=
  match scanContents fs work_dir file_list with
  | .ok S => .ok (some S)
  | .error _ => .ok none

/-! ### Install and sync engines (`install_to_target`, `sync_from_target`,
and the helpers `_do_mkdir`, `_do_copy`, `_prompt_to_overwrite`) -/

/-- Display form of a path, used in error messages. -/
def pathStr (p : Path) : String :=
  String.intercalate "/" p

/-- The overwrite policy (`OverwriteMode`, lines 10-13). -/
inductive OverwriteMode where
  | PROMPT
  | ALL
  | NONE
deriving DecidableEq

/-- A validated answer to the interactive overwrite prompt (the `input()` loop
of `_prompt_to_overwrite` repeats until one of these four strings is typed,
so the input stream is modelled as a list of validated answers). -/
inductive Ans where
  | yes
  | no
  | allFiles
  | noneFiles
deriving DecidableEq

/-- Model of `_do_mkdir` (lines 23-32): an existing path (file or directory)
is left alone, dry-run suppresses creation, and `os.mkdir` needs the parent
to be an existing directory.  The state component of the result is the
filesystem at return or at the moment of the raise. -/
def doMkdir (fs : FS) (p : Path) (dry : Bool) : FS × Option String :=
  if fs.existsPath p then (fs, none)
  else if dry then (fs, none)
  else if fs.isdir p.dropLast then (fs.set p (.dir true), none)
  else (fs, some ("Failed to create directory: " ++ pathStr p))

/-- Model of `shutil.copy src dest`: requires an existing source file and an
existing parent directory for the destination; every call site has already
ruled out an existing directory at `dest`, so that case is folded into the
failure branch. -/
def copyFile (fs : FS) (src dest : Path) : FS × Option String :=
  match fs.lookup src with
  | some (.file c) =>
    match fs.lookup dest with
    | some (.dir _) => (fs, some "copy destination is a directory")
    | _ =>
      if fs.isdir dest.dropLast then (fs.set dest (.file c), none)
      else (fs, some "copy destination parent missing")
  | _ => (fs, some "copy source missing")

/-- Model of `_do_copy` (lines 34-39): dry-run suppresses the copy; a failed
copy raises `RuntimeError` with the filesystem unchanged. -/
def doCopy (fs : FS) (src dest : Path) (dry : Bool) : FS × Option String :=
  if dry then (fs, none)
  else
    match copyFile fs src dest with
    | (fs', none) => (fs', none)
    | (_, some _) => (fs, some ("Failed to overwrite file: " ++ pathStr dest))

/-- Model of `_prompt_to_overwrite` (lines 41-70): under dry-run it returns
`PROMPT` immediately without reading input; otherwise it consumes one
validated answer, copies on `y`/`all`, and returns the possibly upgraded
mode.  An empty input stream models `EOFError` from `input()`. -/
def promptToOverwrite (fs : FS) (src dest : Path) (dry : Bool) (answers : List Ans) :
    (FS × Option String) × OverwriteMode × List Ans :=
  if dry then ((fs, none), .PROMPT, answers)
  else
    match answers with
    | [] => ((fs, some "EOF while reading prompt answer"), .PROMPT, [])
    | .yes :: rest => (doCopy fs src dest false, .PROMPT, rest)
    | .no :: rest => ((fs, none), .PROMPT, rest)
    | .allFiles :: rest => (doCopy fs src dest false, .ALL, rest)
    | .noneFiles :: rest => ((fs, none), .NONE, rest)

/-- Create one directory per element of `ds`, at the path given by `at_`,
stopping at the first failure (the `for d in ...: _do_mkdir(...)` loops of
both engines). -/
def mkDirsAt (at_ : Path → Path) (dry : Bool) : FS → List Path → FS × Option String
  | fs, [] => (fs, none)
  | fs, d :: ds =>
    match doMkdir fs (at_ d) dry with
    | (fs', none) => mkDirsAt at_ dry fs' ds
    | r => r

/-- The `for x in self.explicit_subdirs` loop of `install_to_target`
(lines 266-274): re-resolve each explicit subdirectory through
`_path_in_src` and scan it, accumulating extra directories and files. -/
def scanExplicitSubdirs (fs : FS) (work_dir : Path) :
    List Path → Except String (List Path × List (Path × Path))
  | [] => .ok ([], [])
  | x :: xs =>
    let in_src := pathInSrc work_dir x
    match scanDir fs [] in_src with
    | .error e => .error e
    | .ok (fls, dls) =>
      match scanExplicitSubdirs fs work_dir xs with
      | .error e => .error e
      | .ok (dirs, files) =>
        .ok ((x :: dls.map (fun d => x ++ d)) ++ dirs,
             fls.map (fun f => (in_src ++ f, x ++ f)) ++ files)

/-- The copy loop of `install_to_target` (lines 282-298), threading the
current overwrite mode (which a prompt answer may upgrade) and the remaining
prompt answers. -/
def installFiles (target : Path) (dry : Bool) :
    FS → OverwriteMode → List Ans → List (Path × Path) → FS × Option String
  | fs, _, _, [] => (fs, none)
  | fs, ow, answers, (src, rel) :: es =>
    let dest := target ++ rel
    if fs.isdir dest then
      (fs, some (pathStr dest ++ " exists and is a directory."))
    else if fs.existsPath dest then
      match ow with
      | .PROMPT =>
        match promptToOverwrite fs src dest dry answers with
        | ((fs', none), ow', ans') => installFiles target dry fs' ow' ans' es
        | ((fs', some e), _, _) => (fs', some e)
      | .ALL =>
        match doCopy fs src dest dry with
        | (fs', none) => installFiles target dry fs' .ALL answers es
        | r => r
      | .NONE => installFiles target dry fs .NONE answers es
    else
      match doCopy fs src dest dry with
      | (fs', none) => installFiles target dry fs' ow answers es
      | r => r

/-- Sequencing of engine phases: a raised error short-circuits, carrying the
filesystem at that moment; a successful phase passes the filesystem on. -/
def andThen (r : FS × Option String) (k : FS → FS × Option String) : FS × Option String :=
  match r.2 with
  | none => k r.1
  | some _ => r

/-- Sequencing of a pure scan phase: an exception raised while the engine is
still only reading propagates with the filesystem unchanged. -/
def orElseErr (r : Except String α) (fs : FS) (k : α → FS × Option String) :
    FS × Option String :=
  match r with
  | .error e => (fs, some e)
  | .ok a => k a

/-- Model of `PutconfSource.install_to_target` (lines 262-298). -/
def install_to_target (fs : FS) (S : FileSet) (work_dir target : Path)
    (dry : Bool) (ow : OverwriteMode) (answers : List Ans) : FS × Option String :=
  orElseErr (scanExplicitSubdirs fs work_dir S.explicit_subdirs) fs (fun extra =>
    andThen (mkDirsAt (fun d => target ++ d) dry fs (S.put_subdirs ++ extra.1))
      (fun fs1 => installFiles target dry fs1 ow answers (S.src_files ++ extra.2)))

/-- The body of the final sync loop (lines 366-378), for one `(in_src, rel)`
pair: a directory on the target side is a fatal type conflict; an existing
file is copied back into the source; a missing file is fatal in explicit-list
mode and silently skipped otherwise. -/
def syncOneFile (target : Path) (hasExpl dry : Bool) (fs : FS) (e : Path × Path) :
    FS × Option String :=
  let in_target := target ++ e.2
  if fs.isdir in_target then
    (fs, some (pathStr in_target ++ " is a directory."))
  else if fs.existsPath in_target then
    doCopy fs in_target e.1 dry
  else if hasExpl then
    (fs, some (pathStr in_target ++ " does not exist."))
  else
    (fs, none)

/-- The final sync loop over `chain(extra_files, self.src_files)`. -/
def syncFiles (target : Path) (hasExpl dry : Bool) :
    FS → List (Path × Path) → FS × Option String
  | fs, [] => (fs, none)
  | fs, e :: es =>
    match syncOneFile target hasExpl dry fs e with
    | (fs', none) => syncFiles target hasExpl dry fs' es
    | r => r

/-- The `for in_src, rel in self.sync_new` loop of `sync_from_target`
(lines 321-345): walk ancestors into the shared directory set, then resolve
each pending entry against the target, scanning directories (with sync-back
destinations recomputed through `_path_in_src`), recording files, and failing
on paths that exist on neither side.  The state is
`(subdir_set, extra_dirs, extra_files)`. -/
def syncScanNew (fs : FS) (work_dir target : Path) :
    List Path × List Path × List (Path × Path) → List (Path × Path) →
    Except String (List Path × List Path × List (Path × Path))
  | st, [] => .ok st
  | (sset, dirs, files), (in_src, rel) :: rest =>
    let w := ancWalk sset rel.dropLast
    let sset := w.2
    let dirs := dirs ++ w.1.reverse
    let in_target := target ++ rel
    if fs.isdir in_target then
      let dirs := if rel ∈ sset then dirs else dirs ++ [rel]
      match scanDir fs rel target with
      | .error e => .error e
      | .ok (fls, dls) =>
        syncScanNew fs work_dir target
          (sset, dirs ++ dls, files ++ fls.map (fun f => (pathInSrc work_dir f, f))) rest
    else if fs.existsPath in_target then
      syncScanNew fs work_dir target (sset, dirs, files ++ [(in_src, rel)]) rest
    else
      .error (pathStr in_target ++ " does not exist.")

/-- The `for rel in self.explicit_subdirs` loop of `sync_from_target`
(lines 346-356): every explicitly named subdirectory must exist as a
directory on the target side; its contents are re-scanned from the target
with sync-back destinations recomputed through `_path_in_src`. -/
def syncScanExplicit (fs : FS) (work_dir target : Path) (sset : List Path) :
    List Path × List (Path × Path) → List Path →
    Except String (List Path × List (Path × Path))
  | st, [] => .ok st
  | (dirs, files), rel :: rest =>
    let in_target := target ++ rel
    if fs.isdir in_target then
      let dirs := if rel ∈ sset then dirs else dirs ++ [rel]
      match scanDir fs rel target with
      | .error e => .error e
      | .ok (fls, dls) =>
        syncScanExplicit fs work_dir target sset
          (dirs ++ dls, files ++ fls.map (fun f => (pathInSrc work_dir f, f))) rest
    else
      .error (pathStr in_target ++ " is not a directory.")

/-- The directory-creation and final copy phases of an explicit-list
sync-back (lines 358-378): ensure `work_dir/.dotfiles` exists, create the
extra directories through `_path_in_src`, then run the copy loop over
`chain(extra_files, src_files)`. -/
def syncAfterScans (fs : FS) (src_files : List (Path × Path)) (work_dir target : Path)
    (dry : Bool) (extra_dirs : List Path) (extra_files : List (Path × Path)) :
    FS × Option String :=
  andThen (if fs.isdir (work_dir ++ [".dotfiles"]) then (fs, none)
           else doMkdir fs (work_dir ++ [".dotfiles"]) dry)
    (fun fs1 =>
      andThen (mkDirsAt (fun x => pathInSrc work_dir x) dry fs1 extra_dirs)
        (fun fs2 => syncFiles target true dry fs2 (extra_files ++ src_files)))

/-- Model of `PutconfSource.sync_from_target` (lines 306-378). -/
def sync_from_target (fs : FS) (S : FileSet) (work_dir target : Path) (dry : Bool) :
    FS × Option String :=
  if S.has_explicit_files then
    orElseErr (syncScanNew fs work_dir target ([], [], []) S.sync_new) fs (fun st1 =>
      orElseErr (syncScanExplicit fs work_dir target st1.1 st1.2 S.explicit_subdirs) fs
        (fun st2 => syncAfterScans fs S.src_files work_dir target dry st2.1 st2.2))
  else
    syncFiles target false dry fs S.src_files

/-! ### Concrete fixtures -/

/-- Source tree containing exactly the regular file `a/b.txt` and the dotfile
staging entry `.dotfiles/c.txt`, next to an empty target directory `t`. -/
def c4fs : FS :=
  [(["s"], .dir true), (["s", "a"], .dir true), (["s", "a", "b.txt"], .file "B"),
   (["s", ".dotfiles"], .dir true), (["s", ".dotfiles", "c.txt"], .file "C"),
   (["t"], .dir true)]

/-- The file set obtained by full-scanning `c4fs` at root `s`. -/
def c4S : FileSet :=
  ((scanAll c4fs ["s"]).toOption).getD default

/-- A source tree whose top level is readable but which contains an unreadable
subdirectory `a`, so that the recursive scan raises. -/
def c2fs : FS :=
  [(["s"], .dir true), (["s", "a"], .dir false)]

/-! ### Claim theorems -/

/-! ### Closed form of the explicit-list classification (for C5) -/

/-! ### Overwrite-policy upgrade semantics (for C6) -/

/-- A target holding a conflicting file `t/f` next to a source file `s/f`. -/
def c6fs : FS :=
  [(["t"], .dir true), (["t", "f"], .file "old"), (["s"], .dir true),
   (["s", "f"], .file "new")]

/-! ### Sync-back failure on a missing explicit subdirectory (for C10) -/

/-- Filesystem in which the source contains the directory `s/d` while the
target `t` holds nothing named `d`. -/
def c10fs : FS :=
  [(["s"], .dir true), (["s", "d"], .dir true), (["t"], .dir true)]

/-- The file set obtained by resolving the explicit list `[d]` against
`c10fs`: `d` is a directory in source, hence an explicit subdirectory. -/
def c10S : FileSet :=
  scanFromList c10fs ["s"] [["d"]]

/-! ### Sync-back of a file missing from the target (for C8) -/

/-- Source tree with the file `s/f`, target `t` lacking `f`. -/
def c8fs : FS :=
  [(["s"], .dir true), (["s", "f"], .file "x"), (["t"], .dir true)]

/-- Explicit-list resolution of `[f]` against `c8fs`. -/
def c8S : FileSet :=
  scanFromList c8fs ["s"] [["f"]]

/-- Source tree in which `d` is a regular file, used with the explicit list
`[d/x, d]`: the resolver then records the directory `d` to create and the
file `d` to copy, so a live install creates `t/d` and then hits a
type-conflict that a dry run never sees. -/
def c7fs : FS :=
  [(["s"], .dir true), (["s", "d"], .file "D"), (["t"], .dir true)]

/-- Explicit-list resolution of `[d/x, d]` against `c7fs`. -/
def c7S : FileSet :=
  scanFromList c7fs ["s"] [["d", "x"], ["d"]]

/-- Source tree with the file `s/f`, target already holding a directory
`t/f`: a pre-existing type conflict. -/
def c7afs : FS :=
  [(["s"], .dir true), (["s", "f"], .file "x"), (["t"], .dir true),
   (["t", "f"], .dir true)]

/-- Explicit-list resolution of `[f]` against `c7afs`. -/
def c7aS : FileSet :=
  scanFromList c7afs ["s"] [["f"]]

/-! ### Install frame property (for C9) -/

/-! ### Parent-before-child ordering (for C3) -/

/-- The ordering property of C3: no element of the sequence is a strict
ancestor of an earlier element, so every ancestor of an element that appears
in the sequence appears strictly before it. -/
def Ordered (L : List Path) : Prop :=
  L.Pairwise (fun x y => isPre y x = true → y = x)

/-- The invariant of the worklist loop: `done ++ todo` is exactly the Python
`subdirs` list; it is duplicate-free, already parent-before-child ordered,
and no element strictly extends an unprocessed directory. -/
def ScanInv (done todo : List Path) : Prop :=
  (done ++ todo).Nodup ∧
  Ordered (done ++ todo) ∧
  ∀ t ∈ todo, ∀ u ∈ done ++ todo, isPre t u = true → t = u

/-- Invariant carried by `_scan_from_list` across supplied paths: the
accumulated `put_subdirs` list is parent-before-child ordered, the seen-set
holds exactly its elements, all elements are nonempty, and the list is
dirname-closed. -/
def AncInv (put sset : List Path) : Prop :=
  Ordered put ∧
  (∀ p, p ∈ sset ↔ p ∈ put) ∧
  (∀ p ∈ put, p ≠ []) ∧
  (∀ p ∈ put, p.dropLast = [] ∨ p.dropLast ∈ put)

instance (fs : FS) : Decidable (FS.WF fs) :=
  List.nodupDecidable _

/-! ### Theorems -/

theorem isPre_refl (a : Path) : isPre a a = true := by
  induction a with
  | nil => rfl
  | cons x xs ih => simp [isPre, ih]

theorem isPre_nil_right {a : Path} (h : isPre a [] = true) : a = [] := by
  cases a with
  | nil => rfl
  | cons x xs => simp [isPre] at h

theorem isPre_length {a d : Path} (h : isPre a d = true) : a.length ≤ d.length := by
  induction a generalizing d with
  | nil => simp
  | cons x xs ih =>
    cases d with
    | nil => simp [isPre] at h
    | cons y ys =>
      simp [isPre] at h
      simpa using ih h.2

theorem isPre_eq_of_length {a d : Path} (h : isPre a d = true)
    (hl : a.length = d.length) : a = d := by
  induction a generalizing d with
  | nil =>
    cases d with
    | nil => rfl
    | cons y ys => simp at hl
  | cons x xs ih =>
    cases d with
    | nil => simp [isPre] at h
    | cons y ys =>
      simp [isPre] at h
      simp at hl
      exact by rw [h.1, ih h.2 hl]

theorem isPre_trans {a b c : Path} (h1 : isPre a b = true) (h2 : isPre b c = true) :
    isPre a c = true := by
  induction a generalizing b c with
  | nil => rfl
  | cons x xs ih =>
    cases b with
    | nil => simp [isPre] at h1
    | cons y ys =>
      cases c with
      | nil => simp [isPre] at h2
      | cons z zs =>
        simp [isPre] at h1 h2 ⊢
        exact ⟨h1.1.trans h2.1, ih h1.2 h2.2⟩

theorem isPre_append (a b : Path) : isPre a (a ++ b) = true := by
  induction a with
  | nil => rfl
  | cons x xs ih => simp [isPre, ih]

theorem isPre_append_iff (a : Path) {p q : Path} :
    isPre (a ++ p) (a ++ q) = isPre p q := by
  induction a with
  | nil => rfl
  | cons x xs ih => simp [isPre, ih]

theorem eq_append_of_isPre {a d : Path} (h : isPre a d = true) :
    d = a ++ d.drop a.length := by
  induction a generalizing d with
  | nil => rfl
  | cons x xs ih =>
    cases d with
    | nil => simp [isPre] at h
    | cons y ys =>
      simp [isPre] at h
      simpa [h.1] using ih h.2

theorem isPre_snoc {a d : Path} {n : String} (h : isPre a (d ++ [n]) = true) :
    a = d ++ [n] ∨ isPre a d = true := by
  induction a generalizing d with
  | nil => right; rfl
  | cons x xs ih =>
    cases d with
    | nil =>
      simp [isPre] at h
      rcases h with ⟨hx, hxs⟩
      left
      simp [hx, isPre_nil_right hxs]
    | cons y ys =>
      simp [isPre] at h
      rcases ih h.2 with h2 | h2
      · left; simp [h.1, h2]
      · right; simp [isPre, h.1, h2]

theorem isPre_dropLast {a d : Path} (h : isPre a d = true) (hne : a ≠ d) :
    isPre a d.dropLast = true := by
  induction a generalizing d with
  | nil => rfl
  | cons x xs ih =>
    cases d with
    | nil => simp [isPre] at h
    | cons y ys =>
      simp [isPre] at h
      cases ys with
      | nil =>
        exact absurd (by simp [h.1, isPre_nil_right h.2]) hne
      | cons z zs =>
        have hxs : xs ≠ z :: zs := by
          intro he
          exact hne (by rw [h.1, he])
        have := ih h.2 hxs
        simp [List.dropLast, isPre, h.1]
        exact this

theorem isPre_of_isPre_dropLast {a d : Path} (h : isPre a d.dropLast = true) :
    isPre a d = true := by
  induction a generalizing d with
  | nil => rfl
  | cons x xs ih =>
    cases d with
    | nil => simp at h; simp [isPre] at h
    | cons y ys =>
      cases ys with
      | nil => simp [List.dropLast] at h; simp [isPre] at h
      | cons z zs =>
        simp [List.dropLast, isPre] at h ⊢
        exact ⟨h.1, ih h.2⟩

theorem FS.lookup_set_self (fs : FS) (p : Path) (e : Entry) :
    (fs.set p e).lookup p = some e := by
  induction fs with
  | nil => simp [FS.set, FS.lookup]
  | cons hd tl ih =>
    by_cases h : hd.1 = p
    · simp [FS.set, FS.lookup, h]
    · simp [FS.set, FS.lookup, h, ih]

theorem FS.lookup_set_ne (fs : FS) {p q : Path} (e : Entry) (h : q ≠ p) :
    (fs.set p e).lookup q = fs.lookup q := by
  have h' : p ≠ q := fun he => h he.symm
  induction fs with
  | nil => simp [FS.set, FS.lookup, h']
  | cons hd tl ih =>
    by_cases hh : hd.1 = p
    · have hdq : hd.1 ≠ q := by rw [hh]; exact h'
      simp [FS.set, FS.lookup, hh, hdq, h']
    · by_cases hq : hd.1 = q
      · simp [FS.set, FS.lookup, hh, hq, h]
      · simp [FS.set, FS.lookup, hh, hq, ih]

theorem andThen_none {r : FS × Option String} (h : r.2 = none)
    (k : FS → FS × Option String) : andThen r k = k r.1 := by
  unfold andThen
  rw [h]

theorem andThen_some {r : FS × Option String} {e : String} (h : r.2 = some e)
    (k : FS → FS × Option String) : andThen r k = r := by
  unfold andThen
  rw [h]

/-- C1: the path-to-source mapping.  At resolution time (`_scan_from_list`,
lines 202-209) the mapping is as claimed: a leading-dot path goes below
`work_dir/.dotfiles` with the dot stripped and any other path below
`work_dir` unchanged.  But when an engine later re-resolves a path through
`PutconfSource._path_in_src` (lines 300-304), the guard is
`rel_to_target.startswith("")`, which is true for every string, so the
`.dotfiles` branch is always taken: the non-dot path `ab` is mapped to
`work_dir/.dotfiles/b` instead of the claimed `work_dir/ab`. -/
theorem putconf_C1_dot_mapping_code_bug :
    srcPathOfRel ["w"] ["ab"] = ["w", "ab"] ∧
    srcPathOfRel ["w"] [".bashrc"] = ["w", ".dotfiles", "bashrc"] ∧
    pathStrStartsWith ["ab"] "" = true ∧
    pathInSrc ["w"] ["ab"] = ["w", ".dotfiles", "b"] ∧
    pathInSrc ["w"] ["ab"] ≠ ["w", "ab"] := by
  refine ⟨rfl, rfl, rfl, rfl, ?_⟩
  decide

/-- C2: errors raised while scanning the source tree during construction are
swallowed, not fatal.  On `c2fs` the full scan fails (unreadable
subdirectory), yet the `try/except` at the end of `__init__` (lines 178-180)
builds a `RuntimeError` without raising it, so construction returns normally
with the scan fields unset or partial (`.ok none`) instead of failing. -/
theorem putconf_C2_scan_error_swallowed :
    isErr (scanContents c2fs ["s"] []) = true ∧
    initScanContents c2fs ["s"] [] = .ok none :=
  ⟨rfl, rfl⟩

/-- C4: full-scan install of a source containing exactly `a/b.txt` and
`.dotfiles/c.txt` into an empty target creates the directory `a`, the files
`a/b.txt` and `.c.txt`, and nothing else: the final filesystem is exactly the
initial one extended with those three target entries, and the run succeeds. -/
theorem putconf_C4_roundtrip_install :
    scanAll c4fs ["s"] = .ok c4S ∧
    c4S.src_files = [(["s", "a", "b.txt"], ["a", "b.txt"]),
                     (["s", ".dotfiles", "c.txt"], [".c.txt"])] ∧
    c4S.put_subdirs = [["a"]] ∧
    install_to_target c4fs c4S ["s"] ["t"] false .PROMPT [] =
      (c4fs ++ [(["t", "a"], .dir true), (["t", "a", "b.txt"], .file "B"),
                (["t", ".c.txt"], .file "C")], none) :=
  ⟨rfl, rfl, rfl, rfl⟩

/-- The classification of `_scan_from_list` is pointwise: folded over any
suffix from any accumulated state, each of the three classification lists
grows by exactly the matching elements of the suffix, in order. -/
theorem scanFromList_foldl_closed (fs : FS) (wd : Path) (l : List Path) :
    ∀ (S0 : FileSet) (ss0 : List Path),
    (l.foldl (scanFromListStep fs wd) (S0, ss0)).1.src_files
      = S0.src_files ++
        (l.filter (fun x => !fs.isdir (srcPathOfRel wd x)
            && fs.existsPath (srcPathOfRel wd x))).map (fun x => (srcPathOfRel wd x, x)) ∧
    (l.foldl (scanFromListStep fs wd) (S0, ss0)).1.explicit_subdirs
      = S0.explicit_subdirs ++ l.filter (fun x => fs.isdir (srcPathOfRel wd x)) ∧
    (l.foldl (scanFromListStep fs wd) (S0, ss0)).1.sync_new
      = S0.sync_new ++
        (l.filter (fun x => !fs.isdir (srcPathOfRel wd x)
            && !fs.existsPath (srcPathOfRel wd x))).map (fun x => (srcPathOfRel wd x, x)) := by
  induction l with
  | nil => intro S0 ss0; simp
  | cons x xs ih =>
    intro S0 ss0
    by_cases hd : fs.isdir (srcPathOfRel wd x)
    · have := ih { S0 with explicit_subdirs := S0.explicit_subdirs ++ [x],
                           put_subdirs := S0.put_subdirs ++ (ancWalk ss0 x.dropLast).1.reverse }
                 (ancWalk ss0 x.dropLast).2
      simp only [List.foldl_cons, scanFromListStep, hd, if_true]
      simp only [List.filter_cons, hd]
      simp [this]
    · by_cases he : fs.existsPath (srcPathOfRel wd x)
      · have := ih { S0 with src_files := S0.src_files ++ [(srcPathOfRel wd x, x)],
                             put_subdirs := S0.put_subdirs ++ (ancWalk ss0 x.dropLast).1.reverse }
                   (ancWalk ss0 x.dropLast).2
        simp only [List.foldl_cons, scanFromListStep, hd, he, if_true, if_false]
        simp only [List.filter_cons, hd, he]
        simp [this]
      · have := ih { S0 with sync_new := S0.sync_new ++ [(srcPathOfRel wd x, x)],
                             put_subdirs := S0.put_subdirs ++ (ancWalk ss0 x.dropLast).1.reverse }
                   (ancWalk ss0 x.dropLast).2
        simp only [List.foldl_cons, scanFromListStep, hd, he, if_true, if_false]
        simp only [List.filter_cons, hd, he]
        simp [this]

/-- C5: explicit-list resolution of a name `x` (supplied once) whose mapped
source path exists as neither a file nor a directory yields exactly one
`sync_new` entry for `x` and no `src_files` or `explicit_subdirs` entry
for it. -/
theorem putconf_C5_absent_name_pending (fs : FS) (wd x : Path) (l : List Path)
    (hc : l.count x = 1)
    (hdir : fs.isdir (srcPathOfRel wd x) = false)
    (hex : fs.existsPath (srcPathOfRel wd x) = false) :
    ((scanFromList fs wd l).sync_new.countP (fun e => e.2 == x)) = 1 ∧
    ((scanFromList fs wd l).src_files.countP (fun e => e.2 == x)) = 0 ∧
    ((scanFromList fs wd l).explicit_subdirs.count x) = 0 := by
  have h := scanFromList_foldl_closed fs wd l ⟨[], [], [], [], true⟩ []
  unfold scanFromList
  refine ⟨?_, ?_, ?_⟩
  · rw [h.2.2]
    simp only [List.nil_append, List.countP_map]
    have : ∀ y : Path,
        ((fun e : Path × Path => e.2 == x) ∘ (fun y => (srcPathOfRel wd y, y))) y
          = (y == x) := fun y => rfl
    rw [List.countP_congr (fun y _ => by rw [this y])]
    rw [show (fun y : Path => y == x) = (· == x) from rfl, ← List.count]
    rw [List.count_filter (by simp [hdir, hex])]
    exact hc
  · rw [h.1]
    simp only [List.nil_append, List.countP_map]
    have : ∀ y : Path,
        ((fun e : Path × Path => e.2 == x) ∘ (fun y => (srcPathOfRel wd y, y))) y
          = (y == x) := fun y => rfl
    rw [List.countP_congr (fun y _ => by rw [this y])]
    rw [show (fun y : Path => y == x) = (· == x) from rfl, ← List.count]
    rw [List.count_eq_zero]
    intro hmem
    have := List.of_mem_filter hmem
    simp [hdir, hex] at this
  · rw [h.2.1]
    simp only [List.nil_append, List.count_eq_zero]
    intro hmem
    have := List.of_mem_filter hmem
    simp [hdir] at this

/-- Witness for C5: in `c4fs`, the name `nope` exists in neither form, and
resolving the explicit list `[nope]` produces one pending entry and no file
or explicit-subdirectory entry. -/
theorem putconf_C5_witness :
    ([[("nope" : String)]].count [("nope" : String)] = 1 ∧
     (c4fs.isdir (srcPathOfRel ["s"] ["nope"]) = false) ∧
     (c4fs.existsPath (srcPathOfRel ["s"] ["nope"]) = false)) ∧
    ((scanFromList c4fs ["s"] [["nope"]]).sync_new.countP (fun e => e.2 == ["nope"])) = 1 ∧
    ((scanFromList c4fs ["s"] [["nope"]]).src_files.countP (fun e => e.2 == ["nope"])) = 0 ∧
    ((scanFromList c4fs ["s"] [["nope"]]).explicit_subdirs.count ["nope"]) = 0 :=
  ⟨⟨by decide, rfl, rfl⟩,
   putconf_C5_absent_name_pending c4fs ["s"] ["nope"] [["nope"]] (by decide) rfl rfl⟩

/-- In `ALL` mode the install copy loop never reads the prompt-answer stream. -/
theorem installFiles_ALL_ignores_answers (target : Path) :
    ∀ (es : List (Path × Path)) (fs : FS) (a : List Ans),
      installFiles target false fs .ALL a es = installFiles target false fs .ALL [] es := by
  intro es
  induction es with
  | nil => intro fs a; rfl
  | cons e es ih =>
    intro fs a
    obtain ⟨s, r⟩ := e
    simp only [installFiles]
    split
    · rfl
    · split
      · split
        · exact ih _ _
        · rfl
      · split
        · exact ih _ _
        · rfl

/-- In `NONE` mode the install copy loop never reads the prompt-answer
stream. -/
theorem installFiles_NONE_ignores_answers (target : Path) :
    ∀ (es : List (Path × Path)) (fs : FS) (a : List Ans),
      installFiles target false fs .NONE a es = installFiles target false fs .NONE [] es := by
  intro es
  induction es with
  | nil => intro fs a; rfl
  | cons e es ih =>
    intro fs a
    obtain ⟨s, r⟩ := e
    simp only [installFiles]
    split
    · rfl
    · split
      · exact ih _ _
      · split
        · exact ih _ _
        · rfl

/-- C6: starting from the `PROMPT` policy at a conflicting file, the answer
`all` copies that file and upgrades the policy to `ALL` for the remainder of
the run, under which every later conflicting file is overwritten
unconditionally and no further prompt answer is ever consumed; symmetrically
the answer `none` skips the file and downgrades to `NONE`, under which every
later conflicting file is skipped without prompting. -/
theorem putconf_C6_prompt_upgrade (fs : FS) (target src rel : Path)
    (es : List (Path × Path)) (ans : List Ans) (c c' : String)
    (hsrc : fs.lookup src = some (.file c))
    (hdest : fs.lookup (target ++ rel) = some (.file c'))
    (hpar : fs.isdir (target ++ rel).dropLast = true) :
    installFiles target false fs .PROMPT (.allFiles :: ans) ((src, rel) :: es)
      = installFiles target false (fs.set (target ++ rel) (.file c)) .ALL ans es ∧
    installFiles target false fs .PROMPT (.noneFiles :: ans) ((src, rel) :: es)
      = installFiles target false fs .NONE ans es ∧
    (∀ (es2 : List (Path × Path)) (fs2 : FS) (a2 : List Ans),
      installFiles target false fs2 .ALL a2 es2 = installFiles target false fs2 .ALL [] es2) ∧
    (∀ (es2 : List (Path × Path)) (fs2 : FS) (a2 : List Ans),
      installFiles target false fs2 .NONE a2 es2 = installFiles target false fs2 .NONE [] es2) ∧
    (∀ (fs2 : FS) (a2 : List Ans) (s2 r2 : Path) (es2 : List (Path × Path)) (c2 c3 : String),
      fs2.lookup s2 = some (.file c2) →
      fs2.lookup (target ++ r2) = some (.file c3) →
      fs2.isdir (target ++ r2).dropLast = true →
      installFiles target false fs2 .ALL a2 ((s2, r2) :: es2)
        = installFiles target false (fs2.set (target ++ r2) (.file c2)) .ALL a2 es2) ∧
    (∀ (fs2 : FS) (a2 : List Ans) (s2 r2 : Path) (es2 : List (Path × Path)) (c3 : String),
      fs2.lookup (target ++ r2) = some (.file c3) →
      installFiles target false fs2 .NONE a2 ((s2, r2) :: es2)
        = installFiles target false fs2 .NONE a2 es2) := by
  have hd1 : fs.isdir (target ++ rel) = false := by simp [FS.isdir, hdest]
  have he1 : fs.existsPath (target ++ rel) = true := by simp [FS.existsPath, hdest]
  refine ⟨?_, ?_, installFiles_ALL_ignores_answers target,
          installFiles_NONE_ignores_answers target, ?_, ?_⟩
  · simp [installFiles, hd1, he1, promptToOverwrite, doCopy, copyFile, hsrc, hdest, hpar]
  · simp [installFiles, hd1, he1, promptToOverwrite]
  · intro fs2 a2 s2 r2 es2 c2 c3 h1 h2 h3
    have hd2 : fs2.isdir (target ++ r2) = false := by simp [FS.isdir, h2]
    have he2 : fs2.existsPath (target ++ r2) = true := by simp [FS.existsPath, h2]
    simp [installFiles, hd2, he2, doCopy, copyFile, h1, h2, h3]
  · intro fs2 a2 s2 r2 es2 c3 h2
    have hd2 : fs2.isdir (target ++ r2) = false := by simp [FS.isdir, h2]
    have he2 : fs2.existsPath (target ++ r2) = true := by simp [FS.existsPath, h2]
    simp [installFiles, hd2, he2]

/-- Witness for C6: a concrete conflicting file under `PROMPT` answered
`all` is overwritten and the loop continues in `ALL` mode with the answer
stream untouched. -/
theorem putconf_C6_witness :
    (c6fs.lookup ["s", "f"] = some (.file "new") ∧
     c6fs.lookup ["t", "f"] = some (.file "old") ∧
     c6fs.isdir ["t"] = true) ∧
    installFiles ["t"] false c6fs .PROMPT [.allFiles] [(["s", "f"], ["f"])]
      = installFiles ["t"] false (c6fs.set ["t", "f"] (.file "new")) .ALL [] [] :=
  ⟨⟨rfl, rfl, rfl⟩,
   (putconf_C6_prompt_upgrade c6fs ["t"] ["s", "f"] ["f"] [] [] "new" "old" rfl rfl rfl).1⟩

/-! ### Frame lemmas: which keys an engine step can touch -/

theorem doMkdir_lookup_ne (fs : FS) (p : Path) (dry : Bool) {q : Path} (h : q ≠ p) :
    ((doMkdir fs p dry).1).lookup q = fs.lookup q := by
  unfold doMkdir
  split
  · rfl
  · split
    · rfl
    · split
      · exact FS.lookup_set_ne fs (.dir true) h
      · rfl

theorem copyFile_lookup_ne (fs : FS) (src dest : Path) {q : Path} (h : q ≠ dest) :
    ((copyFile fs src dest).1).lookup q = fs.lookup q := by
  unfold copyFile
  cases hs : fs.lookup src with
  | none => rfl
  | some e =>
    cases e with
    | dir b => rfl
    | file c =>
      cases hd : fs.lookup dest with
      | none =>
        simp only []
        split
        · exact FS.lookup_set_ne fs _ h
        · rfl
      | some e2 =>
        cases e2 with
        | dir b => rfl
        | file c2 =>
          simp only []
          split
          · exact FS.lookup_set_ne fs _ h
          · rfl

theorem doCopy_lookup_ne (fs : FS) (src dest : Path) (dry : Bool) {q : Path} (h : q ≠ dest) :
    ((doCopy fs src dest dry).1).lookup q = fs.lookup q := by
  unfold doCopy
  split
  · rfl
  · rcases hc : copyFile fs src dest with ⟨fs', err⟩
    have h1 := copyFile_lookup_ne fs src dest h
    rw [hc] at h1
    cases err with
    | none => simpa [hc] using h1
    | some e => simp [hc]

theorem promptToOverwrite_lookup_ne (fs : FS) (src dest : Path) (dry : Bool)
    (answers : List Ans) {q : Path} (h : q ≠ dest) :
    ((promptToOverwrite fs src dest dry answers).1.1).lookup q = fs.lookup q := by
  unfold promptToOverwrite
  split
  · rfl
  · split
    · rfl
    · exact doCopy_lookup_ne fs src dest false h
    · rfl
    · exact doCopy_lookup_ne fs src dest false h
    · rfl

theorem mkDirsAt_lookup_ne (at_ : Path → Path) (dry : Bool) :
    ∀ (ds : List Path) (fs : FS) (q : Path), (∀ d ∈ ds, q ≠ at_ d) →
      ((mkDirsAt at_ dry fs ds).1).lookup q = fs.lookup q := by
  intro ds
  induction ds with
  | nil => intro fs q h; rfl
  | cons d ds ih =>
    intro fs q h
    have hd : q ≠ at_ d := h d (by simp)
    have h1 := doMkdir_lookup_ne fs (at_ d) dry hd
    rcases hm : doMkdir fs (at_ d) dry with ⟨fs', err⟩
    rw [hm] at h1
    simp only [mkDirsAt, hm]
    cases err with
    | none =>
      simp only []
      rw [ih fs' q (fun x hx => h x (by simp [hx]))]
      exact h1
    | some e => exact h1

theorem installFiles_lookup_ne (target : Path) (dry : Bool) :
    ∀ (es : List (Path × Path)) (fs : FS) (ow : OverwriteMode) (ans : List Ans) (q : Path),
      (∀ e ∈ es, q ≠ target ++ e.2) →
      ((installFiles target dry fs ow ans es).1).lookup q = fs.lookup q := by
  intro es
  induction es with
  | nil => intro fs ow ans q h; rfl
  | cons e es ih =>
    intro fs ow ans q h
    obtain ⟨s, r⟩ := e
    have hd : q ≠ target ++ r := h (s, r) (by simp)
    have htl : ∀ x ∈ es, q ≠ target ++ x.2 := fun x hx => h x (by simp [hx])
    simp only [installFiles]
    by_cases h1 : fs.isdir (target ++ r) = true
    · simp [h1]
    · by_cases h2 : fs.existsPath (target ++ r) = true
      · rw [if_neg h1, if_pos h2]
        cases ow with
        | PROMPT =>
          rcases hp : promptToOverwrite fs s (target ++ r) dry ans with ⟨⟨fs', err⟩, ow', ans'⟩
          have h3 := promptToOverwrite_lookup_ne fs s (target ++ r) dry ans hd
          rw [hp] at h3
          simp only [hp]
          cases err with
          | none =>
            rw [ih fs' ow' ans' q htl]
            exact h3
          | some e2 => exact h3
        | ALL =>
          rcases hc : doCopy fs s (target ++ r) dry with ⟨fs', err⟩
          have h3 := doCopy_lookup_ne fs s (target ++ r) dry hd
          rw [hc] at h3
          simp only [hc]
          cases err with
          | none =>
            rw [ih fs' .ALL ans q htl]
            exact h3
          | some e2 => exact h3
        | NONE => exact ih fs .NONE ans q htl
      · rw [if_neg h1, if_neg h2]
        rcases hc : doCopy fs s (target ++ r) dry with ⟨fs', err⟩
        have h3 := doCopy_lookup_ne fs s (target ++ r) dry hd
        rw [hc] at h3
        cases err with
        | none =>
          show (installFiles target dry fs' ow ans es).1.lookup q = fs.lookup q
          rw [ih fs' ow ans q htl]
          exact h3
        | some e2 => exact h3

theorem syncOneFile_lookup_ne (target : Path) (hasExpl dry : Bool) (fs : FS)
    (e : Path × Path) {q : Path} (h : q ≠ e.1) :
    ((syncOneFile target hasExpl dry fs e).1).lookup q = fs.lookup q := by
  unfold syncOneFile
  by_cases h1 : fs.isdir (target ++ e.2) = true
  · simp [h1]
  · by_cases h2 : fs.existsPath (target ++ e.2) = true
    · simp only [h1, h2]
      simpa [h1, h2] using doCopy_lookup_ne fs (target ++ e.2) e.1 dry h
    · cases hE : hasExpl <;> simp [h1, h2, hE]

theorem syncFiles_lookup_ne (target : Path) (hasExpl dry : Bool) :
    ∀ (es : List (Path × Path)) (fs : FS) (q : Path),
      (∀ e ∈ es, q ≠ e.1) →
      ((syncFiles target hasExpl dry fs es).1).lookup q = fs.lookup q := by
  intro es
  induction es with
  | nil => intro fs q h; rfl
  | cons e es ih =>
    intro fs q h
    have hd : q ≠ e.1 := h e (by simp)
    have htl : ∀ x ∈ es, q ≠ x.1 := fun x hx => h x (by simp [hx])
    have h1 := syncOneFile_lookup_ne target hasExpl dry fs e hd
    rcases hs : syncOneFile target hasExpl dry fs e with ⟨fs', err⟩
    rw [hs] at h1
    simp only [syncFiles, hs]
    cases err with
    | none =>
      simp only []
      rw [ih fs' q htl]
      exact h1
    | some e2 => exact h1

/-- If some explicitly named subdirectory in the worklist is not a directory
on the target side, the explicit-subdirectory scan of `sync_from_target`
fails. -/
theorem syncScanExplicit_err_of_notdir (fs : FS) (wd target x : Path)
    (hnd : fs.isdir (target ++ x) = false) :
    ∀ (l : List Path) (sset : List Path) (st : List Path × List (Path × Path)),
      x ∈ l → isErr (syncScanExplicit fs wd target sset st l) = true := by
  intro l
  induction l with
  | nil => intro sset st hmem; simp at hmem
  | cons rel rest ih =>
    intro sset st hmem
    obtain ⟨dirs, files⟩ := st
    by_cases hrel : fs.isdir (target ++ rel) = true
    · have hxr : x ∈ rest := by
        rcases List.mem_cons.mp hmem with he | hm
        · rw [he] at hnd
          rw [hnd] at hrel
          cases hrel
        · exact hm
      simp only [syncScanExplicit, hrel, if_true]
      cases hsd : scanDir fs rel target with
      | error e => simp [hsd, isErr]
      | ok pr =>
        obtain ⟨fls, dls⟩ := pr
        simp only [hsd]
        exact ih sset _ hxr
    · simp [syncScanExplicit, hrel, isErr]

/-- C10: during explicit-list sync-back, an explicitly named path that had
resolved to a source directory but whose target-side path is not an existing
directory makes the run fail, before any directory is created or any file is
copied: the filesystem is returned unchanged together with an error. -/
theorem putconf_C10_sync_explicit_subdir_fatal (fs : FS) (S : FileSet)
    (wd target : Path) (dry : Bool) (x : Path)
    (hexp : S.has_explicit_files = true)
    (hx : x ∈ S.explicit_subdirs)
    (hnd : fs.isdir (target ++ x) = false) :
    (sync_from_target fs S wd target dry).1 = fs ∧
    ((sync_from_target fs S wd target dry).2).isSome = true := by
  unfold sync_from_target
  rw [hexp]
  simp only [if_true]
  cases h1 : syncScanNew fs wd target ([], [], []) S.sync_new with
  | error e => simp [h1, orElseErr]
  | ok st1 =>
    have h2 := syncScanExplicit_err_of_notdir fs wd target x hnd
      S.explicit_subdirs st1.1 st1.2 hx
    simp only [h1, orElseErr]
    cases h3 : syncScanExplicit fs wd target st1.1 st1.2 S.explicit_subdirs with
    | error e => simp [h3, orElseErr]
    | ok st2 =>
      rw [h3] at h2
      simp [isErr] at h2

/-- Witness for C10: syncing back the explicit list `[d]` when the target has
no directory `d` fails fatally with the filesystem untouched. -/
theorem putconf_C10_witness :
    (c10S.has_explicit_files = true ∧ ["d"] ∈ c10S.explicit_subdirs ∧
     c10fs.isdir ["t", "d"] = false) ∧
    ((sync_from_target c10fs c10S ["s"] ["t"] false).1 = c10fs ∧
     ((sync_from_target c10fs c10S ["s"] ["t"] false).2).isSome = true) :=
  ⟨⟨rfl, by decide, rfl⟩,
   putconf_C10_sync_explicit_subdir_fatal c10fs c10S ["s"] ["t"] false ["d"]
     rfl (by decide) rfl⟩

/-- Every re-resolved path is below `work_dir` (indeed below
`work_dir/.dotfiles`, since the `startswith("")` guard always fires). -/
theorem isPre_pathInSrc (wd d : Path) : isPre wd (pathInSrc wd d) = true := by
  unfold pathInSrc
  split
  · rw [List.append_assoc]
    exact isPre_append wd _
  · exact isPre_append wd _

/-- Shape of the file entries accumulated by the `sync_new` scan: each comes
from the accumulator, from the `sync_new` list itself, or was re-resolved
through `_path_in_src`. -/
theorem syncScanNew_files_shape (fs : FS) (wd target : Path) :
    ∀ (l : List (Path × Path)) (st out : List Path × List Path × List (Path × Path)),
      syncScanNew fs wd target st l = .ok out →
      ∀ e ∈ out.2.2, e ∈ st.2.2 ∨ e ∈ l ∨ ∃ f, e.1 = pathInSrc wd f := by
  intro l
  induction l with
  | nil =>
    intro st out h e he
    cases h
    exact Or.inl he
  | cons hd rest ih =>
    intro st out h e he
    obtain ⟨sset, dirs, files⟩ := st
    obtain ⟨in_src, rel⟩ := hd
    by_cases h1 : fs.isdir (target ++ rel) = true
    · simp only [syncScanNew, h1, if_true] at h
      cases hsd : scanDir fs rel target with
      | error e2 => rw [hsd] at h; cases h
      | ok pr =>
        rw [hsd] at h
        rcases ih _ _ h e he with hin | hin | hin
        · simp only at hin
          rcases List.mem_append.mp hin with hin2 | hin2
          · exact Or.inl hin2
          · rcases List.mem_map.mp hin2 with ⟨f, _, hf⟩
            exact Or.inr (Or.inr ⟨f, by rw [← hf]⟩)
        · exact Or.inr (Or.inl (by simp [hin]))
        · exact Or.inr (Or.inr hin)
    · by_cases h2 : fs.existsPath (target ++ rel) = true
      · simp only [syncScanNew, h1, h2, if_true, if_false, Bool.false_eq_true] at h
        rcases ih _ _ h e he with hin | hin | hin
        · simp only at hin
          rcases List.mem_append.mp hin with hin2 | hin2
          · exact Or.inl hin2
          · have : e = (in_src, rel) := by simpa using hin2
            exact Or.inr (Or.inl (by simp [this]))
        · exact Or.inr (Or.inl (by simp [hin]))
        · exact Or.inr (Or.inr hin)
      · simp only [syncScanNew, h1, h2, if_false, Bool.false_eq_true] at h
        cases h

/-- Shape of the file entries accumulated by the explicit-subdirectory scan:
each comes from the accumulator or was re-resolved through `_path_in_src`. -/
theorem syncScanExplicit_files_shape (fs : FS) (wd target : Path) (sset : List Path) :
    ∀ (l : List Path) (st out : List Path × List (Path × Path)),
      syncScanExplicit fs wd target sset st l = .ok out →
      ∀ e ∈ out.2, e ∈ st.2 ∨ ∃ f, e.1 = pathInSrc wd f := by
  intro l
  induction l with
  | nil =>
    intro st out h e he
    cases h
    exact Or.inl he
  | cons rel rest ih =>
    intro st out h e he
    obtain ⟨dirs, files⟩ := st
    by_cases h1 : fs.isdir (target ++ rel) = true
    · simp only [syncScanExplicit, h1, if_true] at h
      cases hsd : scanDir fs rel target with
      | error e2 => rw [hsd] at h; cases h
      | ok pr =>
        rw [hsd] at h
        rcases ih _ _ h e he with hin | hin
        · simp only at hin
          rcases List.mem_append.mp hin with hin2 | hin2
          · exact Or.inl hin2
          · rcases List.mem_map.mp hin2 with ⟨f, _, hf⟩
            exact Or.inr ⟨f, by rw [← hf]⟩
        · exact Or.inr hin
    · simp only [syncScanExplicit, h1, if_false, Bool.false_eq_true] at h
      cases h

/-- If some entry of the final sync loop names a target-relative path that
does not exist on the target side, and no earlier copy can create it, the
loop (run in explicit-list mode) ends in an error. -/
theorem syncFiles_err_of_missing (target : Path) (dry : Bool) (rel : Path) :
    ∀ (es : List (Path × Path)) (fs : FS),
      (∃ s, (s, rel) ∈ es) →
      fs.lookup (target ++ rel) = none →
      (∀ e ∈ es, e.1 ≠ target ++ rel) →
      ((syncFiles target true dry fs es).2).isSome = true := by
  intro es
  induction es with
  | nil =>
    intro fs hex
    rcases hex with ⟨s, hs⟩
    simp at hs
  | cons e0 es ih =>
    intro fs hex hmiss hne
    by_cases hrel : e0.2 = rel
    · have hdir : fs.isdir (target ++ e0.2) = false := by
        rw [hrel]
        simp [FS.isdir, hmiss]
      have hexi : fs.existsPath (target ++ e0.2) = false := by
        rw [hrel]
        simp [FS.existsPath, hmiss]
      simp [syncFiles, syncOneFile, hdir, hexi]
    · rcases hex with ⟨s, hs⟩
      have hs' : (s, rel) ∈ es := by
        rcases List.mem_cons.mp hs with he | hm
        · exact absurd (by rw [← he]) hrel
        · exact hm
      have hq : target ++ rel ≠ e0.1 := fun he => hne e0 (by simp) he.symm
      have hpres := syncOneFile_lookup_ne target true dry fs e0 hq
      rcases hstep : syncOneFile target true dry fs e0 with ⟨fs', err⟩
      rw [hstep] at hpres
      cases err with
      | some e2 => simp [syncFiles, hstep]
      | none =>
        simp only [syncFiles, hstep]
        exact ih fs' ⟨s, hs'⟩ (by rw [hpres]; exact hmiss)
          (fun x hx => hne x (by simp [hx]))

/-- The post-scan phases of an explicit sync-back end in an error whenever
some file entry names a missing target path that nothing in the run can
create. -/
theorem syncAfterScans_err_of_missing (fs : FS) (src_files : List (Path × Path))
    (wd target : Path) (dry : Bool) (extra_dirs : List Path)
    (extra_files : List (Path × Path)) (s rel : Path)
    (hmem : (s, rel) ∈ extra_files ++ src_files)
    (hmiss : fs.lookup (target ++ rel) = none)
    (hne : ∀ e ∈ extra_files ++ src_files, e.1 ≠ target ++ rel)
    (hdis : isPre wd (target ++ rel) = false) :
    ((syncAfterScans fs src_files wd target dry extra_dirs extra_files).2).isSome = true := by
  have hdd : target ++ rel ≠ wd ++ [".dotfiles"] := by
    intro he
    rw [he] at hdis
    rw [isPre_append wd [".dotfiles"]] at hdis
    cases hdis
  have hmk : ∀ d, target ++ rel ≠ pathInSrc wd d := by
    intro d he
    rw [he] at hdis
    rw [isPre_pathInSrc wd d] at hdis
    cases hdis
  unfold syncAfterScans
  by_cases h0 : fs.isdir (wd ++ [".dotfiles"]) = true
  · rw [if_pos h0, andThen_none rfl]
    cases hM : (mkDirsAt (fun x => pathInSrc wd x) dry fs extra_dirs).2 with
    | some e2 => rw [andThen_some hM]; rw [hM]; rfl
    | none =>
      rw [andThen_none hM]
      have hpres := mkDirsAt_lookup_ne (fun x => pathInSrc wd x) dry extra_dirs fs
        (target ++ rel) (fun d _ => hmk d)
      exact syncFiles_err_of_missing target dry rel (extra_files ++ src_files) _
        ⟨s, hmem⟩ (by rw [hpres]; exact hmiss) hne
  · rw [if_neg h0]
    cases hd0 : (doMkdir fs (wd ++ [".dotfiles"]) dry).2 with
    | some e2 => rw [andThen_some hd0]; rw [hd0]; rfl
    | none =>
      rw [andThen_none hd0]
      have hpres0 := doMkdir_lookup_ne fs (wd ++ [".dotfiles"]) dry hdd
      cases hM : (mkDirsAt (fun x => pathInSrc wd x) dry
          (doMkdir fs (wd ++ [".dotfiles"]) dry).1 extra_dirs).2 with
      | some e2 => rw [andThen_some hM]; rw [hM]; rfl
      | none =>
        rw [andThen_none hM]
        have hpres := mkDirsAt_lookup_ne (fun x => pathInSrc wd x) dry extra_dirs
          (doMkdir fs (wd ++ [".dotfiles"]) dry).1 (target ++ rel) (fun d _ => hmk d)
        exact syncFiles_err_of_missing target dry rel (extra_files ++ src_files) _
          ⟨s, hmem⟩ (by rw [hpres, hpres0]; exact hmiss) hne

/-- C8: during sync-back, a file entry whose target-side path does not exist
is fatal when an explicit file list was supplied, and is silently skipped
(no error, no change) in full-scan mode.  The explicit half is stated for a
whole run whose source tree lies outside the missing target path (every
source-side path of the file set begins with `work_dir`, and `work_dir` is
not an ancestor of the missing path), the full-scan half for the loop body
that processes the entry. -/
theorem putconf_C8_sync_missing_target (fs : FS) (S : FileSet) (wd target : Path)
    (dry : Bool) (s rel : Path)
    (hmem : (s, rel) ∈ S.src_files)
    (hmiss : fs.lookup (target ++ rel) = none)
    (hsn : ∀ e ∈ S.sync_new, isPre wd e.1 = true)
    (hsf : ∀ e ∈ S.src_files, isPre wd e.1 = true)
    (hdis : isPre wd (target ++ rel) = false) :
    (S.has_explicit_files = true →
      ((sync_from_target fs S wd target dry).2).isSome = true) ∧
    syncOneFile target false dry fs (s, rel) = (fs, none) := by
  constructor
  · intro hexp
    have hwdne : ∀ (p : Path), isPre wd p = true → p ≠ target ++ rel := by
      intro p hp he
      rw [he] at hp
      rw [hp] at hdis
      cases hdis
    unfold sync_from_target
    rw [hexp]
    simp only [if_true]
    cases h1 : syncScanNew fs wd target ([], [], []) S.sync_new with
    | error e => simp [orElseErr]
    | ok st1 =>
      simp only [orElseErr]
      cases h3 : syncScanExplicit fs wd target st1.1 st1.2 S.explicit_subdirs with
      | error e => simp [orElseErr]
      | ok st2 =>
        simp only [orElseErr]
        have hshape1 := syncScanNew_files_shape fs wd target S.sync_new _ _ h1
        have hshape2 := syncScanExplicit_files_shape fs wd target st1.1
          S.explicit_subdirs _ _ h3
        apply syncAfterScans_err_of_missing fs S.src_files wd target dry st2.1 st2.2 s rel
        · exact List.mem_append.mpr (Or.inr hmem)
        · exact hmiss
        · intro e he
          rcases List.mem_append.mp he with he2 | he2
          · rcases hshape2 e he2 with hin | ⟨f, hf⟩
            · rcases hshape1 e hin with hin2 | hin2 | ⟨f, hf⟩
              · simp at hin2
              · exact hwdne e.1 (hsn e hin2)
              · rw [hf]
                exact hwdne _ (isPre_pathInSrc wd f)
            · rw [hf]
              exact hwdne _ (isPre_pathInSrc wd f)
          · exact hwdne e.1 (hsf e he2)
        · exact hdis
  · have hdir : fs.isdir (target ++ rel) = false := by simp [FS.isdir, hmiss]
    have hexi : fs.existsPath (target ++ rel) = false := by simp [FS.existsPath, hmiss]
    simp [syncOneFile, hdir, hexi]

/-- Witness for C8: syncing back the explicit list `[f]` when `t/f` does not
exist fails, while the full-scan loop body for the same entry is a no-op. -/
theorem putconf_C8_witness :
    ((["s", "f"], ["f"]) ∈ c8S.src_files ∧
     c8fs.lookup ["t", "f"] = none ∧
     isPre ["s"] ["t", "f"] = false ∧
     c8S.has_explicit_files = true) ∧
    (((sync_from_target c8fs c8S ["s"] ["t"] false).2).isSome = true ∧
     syncOneFile ["t"] false false c8fs (["s", "f"], ["f"]) = (c8fs, none)) :=
  ⟨⟨by decide, rfl, rfl, rfl⟩,
   (putconf_C8_sync_missing_target c8fs c8S ["s"] ["t"] false ["s", "f"] ["f"]
     (by decide) rfl (by decide) (by decide) rfl).1 rfl,
   (putconf_C8_sync_missing_target c8fs c8S ["s"] ["t"] false ["s", "f"] ["f"]
     (by decide) rfl (by decide) (by decide) rfl).2⟩

/-! ### Dry-run behaviour (for C7) -/

theorem doMkdir_dry (fs : FS) (p : Path) : doMkdir fs p true = (fs, none) := by
  unfold doMkdir
  split <;> simp

theorem doCopy_dry (fs : FS) (src dest : Path) : doCopy fs src dest true = (fs, none) := rfl

theorem mkDirsAt_dry (at_ : Path → Path) :
    ∀ (ds : List Path) (fs : FS), mkDirsAt at_ true fs ds = (fs, none) := by
  intro ds
  induction ds with
  | nil => intro fs; rfl
  | cons d ds ih =>
    intro fs
    simp only [mkDirsAt, doMkdir_dry]
    exact ih fs

theorem installFiles_dry_state (target : Path) :
    ∀ (es : List (Path × Path)) (fs : FS) (ow : OverwriteMode) (ans : List Ans),
      (installFiles target true fs ow ans es).1 = fs := by
  intro es
  induction es with
  | nil => intro fs ow ans; rfl
  | cons e es ih =>
    intro fs ow ans
    obtain ⟨s, r⟩ := e
    simp only [installFiles]
    by_cases h1 : fs.isdir (target ++ r) = true
    · simp [h1]
    · by_cases h2 : fs.existsPath (target ++ r) = true
      · rw [if_neg h1, if_pos h2]
        cases ow with
        | PROMPT => simpa [promptToOverwrite] using ih fs .PROMPT ans
        | ALL => simpa [doCopy_dry] using ih fs .ALL ans
        | NONE => exact ih fs .NONE ans
      · rw [if_neg h1, if_neg h2]
        simpa [doCopy_dry] using ih fs ow ans

theorem syncOneFile_dry_state (target : Path) (hasExpl : Bool) (fs : FS) (e : Path × Path) :
    (syncOneFile target hasExpl true fs e).1 = fs := by
  unfold syncOneFile
  by_cases h1 : fs.isdir (target ++ e.2) = true
  · simp [h1]
  · by_cases h2 : fs.existsPath (target ++ e.2) = true
    · simp [h1, h2, doCopy_dry]
    · cases hE : hasExpl <;> simp [h1, h2, hE]

theorem syncFiles_dry_state (target : Path) (hasExpl : Bool) :
    ∀ (es : List (Path × Path)) (fs : FS), (syncFiles target hasExpl true fs es).1 = fs := by
  intro es
  induction es with
  | nil => intro fs; rfl
  | cons e es ih =>
    intro fs
    have hst := syncOneFile_dry_state target hasExpl fs e
    rcases hs : syncOneFile target hasExpl true fs e with ⟨fs', err⟩
    rw [hs] at hst
    simp only at hst
    simp only [syncFiles, hs]
    cases err with
    | none => rw [ih fs']; exact hst
    | some e2 => exact hst

/-- A live run's type-conflict on a file destination that is a directory in
the state entering the copy loop is always raised, whatever the overwrite
mode, answers, or dry-run flag. -/
theorem installFiles_err_of_dirdest (target : Path) (dry : Bool) :
    ∀ (es : List (Path × Path)) (fs : FS) (ow : OverwriteMode) (ans : List Ans),
      (∃ e ∈ es, ∃ b, fs.lookup (target ++ e.2) = some (.dir b)) →
      ((installFiles target dry fs ow ans es).2).isSome = true := by
  intro es
  induction es with
  | nil =>
    intro fs ow ans hex
    rcases hex with ⟨e, he, _⟩
    simp at he
  | cons e0 es ih =>
    intro fs ow ans hex
    rcases hex with ⟨e, he, b, hb⟩
    obtain ⟨s0, r0⟩ := e0
    by_cases h1 : fs.isdir (target ++ r0) = true
    · simp [installFiles, h1]
    · have hbdir : fs.isdir (target ++ e.2) = true := by simp [FS.isdir, hb]
      have hee : e ∈ es := by
        rcases List.mem_cons.mp he with he2 | he2
        · rw [he2] at hbdir
          exact absurd hbdir h1
        · exact he2
      have hqne : target ++ e.2 ≠ target ++ r0 := by
        intro hc
        rw [hc] at hbdir
        exact h1 hbdir
      simp only [installFiles]
      by_cases h2 : fs.existsPath (target ++ r0) = true
      · rw [if_neg h1, if_pos h2]
        cases ow with
        | PROMPT =>
          have hpres := promptToOverwrite_lookup_ne fs s0 (target ++ r0) dry ans hqne
          rcases hp : promptToOverwrite fs s0 (target ++ r0) dry ans with ⟨⟨fs', err⟩, ow', ans'⟩
          rw [hp] at hpres
          simp only [hp]
          cases err with
          | none => exact ih fs' ow' ans' ⟨e, hee, b, by rw [hpres]; exact hb⟩
          | some e2 => rfl
        | ALL =>
          have hpres := doCopy_lookup_ne fs s0 (target ++ r0) dry hqne
          rcases hc : doCopy fs s0 (target ++ r0) dry with ⟨fs', err⟩
          rw [hc] at hpres
          simp only [hc]
          cases err with
          | none => exact ih fs' .ALL ans ⟨e, hee, b, by rw [hpres]; exact hb⟩
          | some e2 => rfl
        | NONE => exact ih fs .NONE ans ⟨e, hee, b, hb⟩
      · rw [if_neg h1, if_neg h2]
        have hpres := doCopy_lookup_ne fs s0 (target ++ r0) dry hqne
        rcases hc : doCopy fs s0 (target ++ r0) dry with ⟨fs', err⟩
        rw [hc] at hpres
        cases err with
        | none =>
          show ((installFiles target dry fs' ow ans es).2).isSome = true
          exact ih fs' ow ans ⟨e, hee, b, by rw [hpres]; exact hb⟩
        | some e2 => rfl

theorem doMkdir_lookup_preserve (fs : FS) (p : Path) (dry : Bool) {k : Path} {v : Entry}
    (h : fs.lookup k = some v) : ((doMkdir fs p dry).1).lookup k = some v := by
  by_cases he : k = p
  · subst he
    unfold doMkdir
    rw [if_pos (by simp [FS.existsPath, h])]
    exact h
  · rw [doMkdir_lookup_ne fs p dry he]
    exact h

theorem mkDirsAt_lookup_preserve (at_ : Path → Path) (dry : Bool) :
    ∀ (ds : List Path) (fs : FS) {k : Path} {v : Entry}, fs.lookup k = some v →
      ((mkDirsAt at_ dry fs ds).1).lookup k = some v := by
  intro ds
  induction ds with
  | nil => intro fs k v h; exact h
  | cons d ds ih =>
    intro fs k v h
    have h1 := doMkdir_lookup_preserve fs (at_ d) dry h
    rcases hm : doMkdir fs (at_ d) dry with ⟨fs', err⟩
    rw [hm] at h1
    simp only [mkDirsAt, hm]
    cases err with
    | none => exact ih fs' h1
    | some e => exact h1

/-- Counterexample to C7 as stated: on `c7fs` with the explicit list
`[d/x, d]`, a live install aborts with a type-conflict error (the directory
`t/d` it itself just created), while the dry run of the same install
succeeds with no error at all - so not every type-conflict error of a live
run is raised under dry-run. -/
theorem putconf_C7_counterexample :
    ((install_to_target c7fs c7S ["s"] ["t"] false .PROMPT []).2).isSome = true ∧
    (install_to_target c7fs c7S ["s"] ["t"] true .PROMPT []).2 = none :=
  ⟨rfl, rfl⟩

/-- C7 (amended): dry-run performs no filesystem mutation at all, for both
install and sync-back, and validation against the filesystem state as it was
at the start of the run still happens: a file entry whose target path is
already a directory before the run makes install fail under dry-run exactly
as it does live.  (Errors that a live run raises only against its own
freshly created state are not covered; see the counterexample.) -/
theorem putconf_C7_dry_run_amended (fs : FS) (S : FileSet) (wd target : Path)
    (ow : OverwriteMode) (ans : List Ans) (dry : Bool) :
    (install_to_target fs S wd target true ow ans).1 = fs ∧
    (sync_from_target fs S wd target true).1 = fs ∧
    ((∃ e ∈ S.src_files, ∃ b, fs.lookup (target ++ e.2) = some (.dir b)) →
      ((install_to_target fs S wd target dry ow ans).2).isSome = true) := by
  refine ⟨?_, ?_, ?_⟩
  · unfold install_to_target
    cases hs : scanExplicitSubdirs fs wd S.explicit_subdirs with
    | error e => rfl
    | ok extra =>
      simp only [orElseErr, mkDirsAt_dry, andThen_none]
      exact installFiles_dry_state target _ fs ow ans
  · unfold sync_from_target
    cases hE : S.has_explicit_files with
    | false => simp only [Bool.false_eq_true, if_false]
               exact syncFiles_dry_state target false _ fs
    | true =>
      simp only [if_true]
      cases h1 : syncScanNew fs wd target ([], [], []) S.sync_new with
      | error e => rfl
      | ok st1 =>
        simp only [orElseErr]
        cases h3 : syncScanExplicit fs wd target st1.1 st1.2 S.explicit_subdirs with
        | error e => rfl
        | ok st2 =>
          simp only [orElseErr]
          unfold syncAfterScans
          by_cases h0 : fs.isdir (wd ++ [".dotfiles"]) = true
          · rw [if_pos h0, andThen_none rfl, mkDirsAt_dry, andThen_none rfl]
            exact syncFiles_dry_state target true _ fs
          · rw [if_neg h0, doMkdir_dry, andThen_none rfl, mkDirsAt_dry, andThen_none rfl]
            exact syncFiles_dry_state target true _ fs
  · intro hex
    rcases hex with ⟨e, he, b, hb⟩
    unfold install_to_target
    cases hs : scanExplicitSubdirs fs wd S.explicit_subdirs with
    | error e2 => rfl
    | ok extra =>
      simp only [orElseErr]
      cases hM : (mkDirsAt (fun d => target ++ d) dry fs (S.put_subdirs ++ extra.1)).2 with
      | some e2 => rw [andThen_some hM]; rw [hM]; rfl
      | none =>
        rw [andThen_none hM]
        exact installFiles_err_of_dirdest target dry (S.src_files ++ extra.2) _ ow ans
          ⟨e, List.mem_append.mpr (Or.inl he), b,
           mkDirsAt_lookup_preserve (fun d => target ++ d) dry (S.put_subdirs ++ extra.1) fs hb⟩

/-- Witness for the amended C7: on a pre-existing type conflict both the live
and the dry install abort, and the dry runs of install and sync leave the
filesystem untouched. -/
theorem putconf_C7_witness :
    (install_to_target c7afs c7aS ["s"] ["t"] true .PROMPT []).1 = c7afs ∧
    (sync_from_target c7afs c7aS ["s"] ["t"] true).1 = c7afs ∧
    ((install_to_target c7afs c7aS ["s"] ["t"] false .PROMPT []).2).isSome = true :=
  ⟨(putconf_C7_dry_run_amended c7afs c7aS ["s"] ["t"] .PROMPT [] false).1,
   (putconf_C7_dry_run_amended c7afs c7aS ["s"] ["t"] .PROMPT [] false).2.1,
   (putconf_C7_dry_run_amended c7afs c7aS ["s"] ["t"] .PROMPT [] false).2.2
     ⟨(["s", "f"], ["f"]), by decide, true, by decide⟩⟩

/-- The extra directories and files produced by re-scanning explicit
subdirectories all have nonempty target-relative paths (they extend the
nonempty subdirectory names). -/
theorem scanExplicitSubdirs_nonempty (fs : FS) (wd : Path) :
    ∀ (l : List Path) (out : List Path × List (Path × Path)),
      scanExplicitSubdirs fs wd l = .ok out →
      (∀ x ∈ l, x ≠ []) →
      (∀ d ∈ out.1, d ≠ []) ∧ (∀ e ∈ out.2, e.2 ≠ []) := by
  intro l
  induction l with
  | nil =>
    intro out h hx
    cases h
    exact ⟨by simp, by simp⟩
  | cons x xs ih =>
    intro out h hx
    have hxne : x ≠ [] := hx x (by simp)
    have hxs : ∀ y ∈ xs, y ≠ [] := fun y hy => hx y (by simp [hy])
    simp only [scanExplicitSubdirs] at h
    cases hsd : scanDir fs [] (pathInSrc wd x) with
    | error e => rw [hsd] at h; cases h
    | ok pr =>
      obtain ⟨fls, dls⟩ := pr
      rw [hsd] at h
      cases hrec : scanExplicitSubdirs fs wd xs with
      | error e => rw [hrec] at h; cases h
      | ok pr2 =>
        obtain ⟨dirs, files⟩ := pr2
        rw [hrec] at h
        cases h
        have hih := ih (dirs, files) hrec hxs
        constructor
        · intro d hd
          rcases List.mem_append.mp hd with hd2 | hd2
          · rcases List.mem_cons.mp hd2 with hd3 | hd3
            · rw [hd3]; exact hxne
            · rcases List.mem_map.mp hd3 with ⟨d', _, hd4⟩
              rw [← hd4]
              simp [hxne]
          · exact hih.1 d hd2
        · intro e he
          rcases List.mem_append.mp he with he2 | he2
          · rcases List.mem_map.mp he2 with ⟨f, _, hf⟩
            rw [← hf]
            simp [hxne]
          · exact hih.2 e he2

/-- C9: every path whose entry an install run changes (directory created or
file written, live or failing) lies strictly below the target directory;
in particular nothing under a source tree disjoint from the target is ever
created, modified, or removed.  The hypotheses state the invariants the
resolver guarantees: all recorded target-relative paths are nonempty. -/
theorem putconf_C9_install_frame (fs : FS) (S : FileSet) (wd target : Path)
    (dry : Bool) (ow : OverwriteMode) (ans : List Ans)
    (h1 : ∀ e ∈ S.src_files, e.2 ≠ [])
    (h2 : ∀ d ∈ S.put_subdirs, d ≠ [])
    (h3 : ∀ x ∈ S.explicit_subdirs, x ≠ []) :
    ∀ q, ((install_to_target fs S wd target dry ow ans).1).lookup q ≠ fs.lookup q →
      isPre target q = true ∧ q ≠ target := by
  intro q hch
  by_contra hnot
  apply hch
  have hq : ∀ (suffix : Path), suffix ≠ [] → q ≠ target ++ suffix := by
    intro suf hsuf he
    apply hnot
    refine ⟨by rw [he]; exact isPre_append target suf, ?_⟩
    rw [he]
    intro hc
    have hlen := congrArg List.length hc
    simp at hlen
    exact hsuf hlen
  unfold install_to_target
  cases hs : scanExplicitSubdirs fs wd S.explicit_subdirs with
  | error e => rfl
  | ok extra =>
    simp only [orElseErr]
    have hex := scanExplicitSubdirs_nonempty fs wd S.explicit_subdirs extra hs h3
    have hmk : ((mkDirsAt (fun d => target ++ d) dry fs (S.put_subdirs ++ extra.1)).1).lookup q
        = fs.lookup q := by
      apply mkDirsAt_lookup_ne
      intro d hd
      rcases List.mem_append.mp hd with hd2 | hd2
      · exact hq d (h2 d hd2)
      · exact hq d (hex.1 d hd2)
    cases hM : (mkDirsAt (fun d => target ++ d) dry fs (S.put_subdirs ++ extra.1)).2 with
    | some e2 =>
      rw [andThen_some hM]
      exact hmk
    | none =>
      rw [andThen_none hM]
      rw [installFiles_lookup_ne target dry (S.src_files ++ extra.2) _ ow ans q ?hne]
      · exact hmk
      case hne =>
        intro e he
        rcases List.mem_append.mp he with he2 | he2
        · exact hq e.2 (h1 e he2)
        · exact hq e.2 (hex.2 e he2)

/-- Witness for C9: in the concrete round-trip install, the changed path
`t/a` indeed lies strictly below the target `t`. -/
theorem putconf_C9_witness :
    ((∀ e ∈ c4S.src_files, e.2 ≠ []) ∧ (∀ d ∈ c4S.put_subdirs, d ≠ []) ∧
     (∀ x ∈ c4S.explicit_subdirs, x ≠ []) ∧
     ((install_to_target c4fs c4S ["s"] ["t"] false .PROMPT .nil).1).lookup ["t", "a"]
       ≠ c4fs.lookup ["t", "a"]) ∧
    (isPre ["t"] ["t", "a"] = true ∧ ["t", "a"] ≠ ["t"]) :=
  ⟨⟨by decide, by decide, by decide, by decide⟩,
   putconf_C9_install_frame c4fs c4S ["s"] ["t"] false .PROMPT .nil
     (by decide) (by decide) (by decide) ["t", "a"] (by decide)⟩

theorem snoc_getLastD {α : Type} (d : α) :
    ∀ (l : List α), l ≠ [] → l = l.dropLast ++ [l.getLastD d] := by
  intro l
  induction l generalizing d with
  | nil => intro h; exact absurd rfl h
  | cons a t ih =>
    intro _
    cases t with
    | nil => rfl
    | cons b t2 =>
      have := ih a (by simp)
      calc a :: b :: t2 = a :: (b :: t2) := rfl
        _ = a :: ((b :: t2).dropLast ++ [(b :: t2).getLastD a]) := by rw [← this]
        _ = (a :: b :: t2).dropLast ++ [(a :: b :: t2).getLastD d] := by
              simp [List.dropLast, List.getLastD]

/-- Children listed by a well-formed filesystem carry no duplicates. -/
theorem childNames_nodup (fs : FS) (hWF : FS.WF fs) (p : Path) :
    (fs.childNames p).Nodup := by
  unfold FS.childNames
  have hkeys : ((fs.filter (fun q => q.1.dropLast == p && !q.1.isEmpty)).map Prod.fst).Nodup :=
    List.Nodup.sublist (List.Sublist.map Prod.fst (List.filter_sublist fs)) hWF
  have hrw : (fs.filter (fun q => q.1.dropLast == p && !q.1.isEmpty)).map
      (fun q => q.1.getLastD "")
      = ((fs.filter (fun q => q.1.dropLast == p && !q.1.isEmpty)).map Prod.fst).map
          (fun k => k.getLastD "") := by
    rw [List.map_map]
    rfl
  rw [hrw]
  apply List.Nodup.map_on ?inj hkeys
  intro k1 h1 k2 h2 heq
  obtain ⟨q1, hq1, hk1⟩ := List.mem_map.mp h1
  obtain ⟨q2, hq2, hk2⟩ := List.mem_map.mp h2
  have hp1 := List.of_mem_filter hq1
  have hp2 := List.of_mem_filter hq2
  rw [hk1] at hp1
  rw [hk2] at hp2
  simp only [Bool.and_eq_true, beq_iff_eq, Bool.not_eq_true', List.isEmpty_eq_false] at hp1 hp2
  have e1 : k1 = p ++ [k1.getLastD ""] := by
    have := snoc_getLastD "" k1 hp1.2
    rw [hp1.1] at this
    exact this
  have e2 : k2 = p ++ [k2.getLastD ""] := by
    have := snoc_getLastD "" k2 hp2.2
    rw [hp2.1] at this
    exact this
  rw [e1, e2, heq]

/-- Shape of one scan pass: every discovered subdirectory is a direct child
path `d ++ [n]`, and (on a well-formed filesystem) the list has no
duplicates. -/
theorem scanChildren_shape (fs : FS) (hWF : FS.WF fs) (rel_to d : Path)
    {cf cd : List Path} (h : scanChildren fs rel_to d = .ok (cf, cd)) :
    (∀ c ∈ cd, ∃ n, c = d ++ [n]) ∧ cd.Nodup := by
  unfold scanChildren at h
  cases hsc : fs.scandir (rel_to ++ d) with
  | error e => rw [hsc] at h; cases h
  | ok names =>
    rw [hsc] at h
    have hnames : names.Nodup := by
      unfold FS.scandir at hsc
      cases hl : fs.lookup (rel_to ++ d) with
      | none => rw [hl] at hsc; cases hsc
      | some e =>
        cases e with
        | file c => rw [hl] at hsc; cases hsc
        | dir b =>
          cases b with
          | false => rw [hl] at hsc; cases hsc
          | true =>
            rw [hl] at hsc
            cases hsc
            exact childNames_nodup fs hWF (rel_to ++ d)
    cases h
    constructor
    · intro c hc
      rcases List.mem_filterMap.mp hc with ⟨n, _, hn⟩
      by_cases hd : fs.isdir (rel_to ++ d ++ [n]) = true
      · rw [if_pos hd] at hn
        exact ⟨n, (Option.some_inj.mp hn).symm⟩
      · rw [if_neg hd] at hn
        cases hn
    · apply List.Nodup.filterMap ?inj hnames
      intro n1 n2 c hc1 hc2
      by_cases hd1 : fs.isdir (rel_to ++ d ++ [n1]) = true
      · rw [if_pos hd1] at hc1
        by_cases hd2 : fs.isdir (rel_to ++ d ++ [n2]) = true
        · rw [if_pos hd2] at hc2
          have e1 := Option.mem_some_iff.mp hc1
          have e2 := Option.mem_some_iff.mp hc2
          have : d ++ [n1] = d ++ [n2] := by rw [e1, ← e2]
          simpa using this
        · rw [if_neg hd2] at hc2
          simp at hc2
      · rw [if_neg hd1] at hc1
        simp at hc1

/-- One step of the worklist loop preserves the invariant: processing the
head `d` appends its direct children at the back. -/
theorem scanInv_step {done rest cd : List Path} {d : Path}
    (hinv : ScanInv done (d :: rest))
    (hshape : ∀ c ∈ cd, ∃ n, c = d ++ [n])
    (hnodup : cd.Nodup) :
    ScanInv (done ++ [d]) (rest ++ cd) := by
  obtain ⟨hnd, hord, hext⟩ := hinv
  have hdm : d ∈ done ++ d :: rest := by simp
  have hAnotin : ∀ c ∈ cd, c ∉ done ++ d :: rest := by
    intro c hc hmem
    obtain ⟨n, hn⟩ := hshape c hc
    have hpre : isPre d c = true := by rw [hn]; exact isPre_append d [n]
    have := hext d (by simp) c hmem hpre
    rw [this, hn] at hpre
    have := isPre_length (a := d ++ [n]) (d := d) (by rw [← hn, ← this]; exact isPre_refl _)
    simp at this
  have hB : ∀ c ∈ cd, ∀ u ∈ done ++ d :: rest, isPre c u = true → False := by
    intro c hc u hu hcu
    obtain ⟨n, hn⟩ := hshape c hc
    have hdc : isPre d c = true := by rw [hn]; exact isPre_append d [n]
    have hdu : isPre d u = true := isPre_trans hdc hcu
    have hde := hext d (by simp) u hu hdu
    rw [← hde] at hcu
    have hlen := isPre_length hcu
    rw [hn] at hlen
    simp at hlen
  have hL : done ++ [d] ++ (rest ++ cd) = (done ++ d :: rest) ++ cd := by simp
  refine ⟨?_, ?_, ?_⟩
  · rw [hL]
    exact List.Nodup.append hnd hnodup (fun a ha hac => hAnotin a hac ha)
  · rw [hL]
    unfold Ordered
    rw [List.pairwise_append]
    refine ⟨hord, ?_, ?_⟩
    · apply List.pairwise_of_forall_mem_list
      intro a ha b hb hpre
      obtain ⟨n1, hn1⟩ := hshape a ha
      obtain ⟨n2, hn2⟩ := hshape b hb
      exact isPre_eq_of_length hpre (by rw [hn1, hn2]; simp)
    · intro a ha c hc hpre
      exact absurd hpre (fun hp => hB c hc a ha hp)
  · intro t ht u hu
    rw [hL] at hu
    rcases List.mem_append.mp ht with htr | htc
    · intro hpre
      rcases List.mem_append.mp hu with hu1 | hu2
      · exact hext t (by simp [htr]) u hu1 hpre
      · obtain ⟨n, hn⟩ := hshape u hu2
        rw [hn] at hpre
        rcases isPre_snoc hpre with he | he
        · rw [he, hn]
        · have htd := hext t (by simp [htr]) d hdm he
          have hdrest : d ∉ rest :=
            (List.nodup_cons.mp (List.Nodup.of_append_right hnd)).1
          rw [htd] at htr
          exact absurd htr hdrest
    · intro hpre
      rcases List.mem_append.mp hu with hu1 | hu2
      · exact absurd hpre (fun hp => False.elim (hB t htc u hu1 hp))
      · obtain ⟨n1, hn1⟩ := hshape t htc
        obtain ⟨n2, hn2⟩ := hshape u hu2
        exact isPre_eq_of_length hpre (by rw [hn1, hn2]; simp)

/-- The worklist loop keeps the subdirectory sequence it returns in
parent-before-child order, from any state satisfying the invariant. -/
theorem scanLoop_ordered (fs : FS) (hWF : FS.WF fs) (rel_to : Path) :
    ∀ (fuel : Nat) (files done todo : List Path),
      ScanInv done todo →
      ∀ res, scanLoop fs rel_to fuel files done todo = .ok res → Ordered res.2 := by
  intro fuel
  induction fuel with
  | zero =>
    intro files done todo hinv res h
    cases h
    exact hinv.2.1
  | succ n ih =>
    intro files done todo hinv res h
    cases todo with
    | nil =>
      cases h
      simpa [Ordered] using hinv.2.1
    | cons d rest =>
      simp only [scanLoop] at h
      cases hsc : scanChildren fs rel_to d with
      | error e => rw [hsc] at h; cases h
      | ok pr =>
        obtain ⟨cf, cd⟩ := pr
        rw [hsc] at h
        have hsh := scanChildren_shape fs hWF rel_to d hsc
        exact ih _ _ _ (scanInv_step hinv hsh.1 hsh.2) res h

/-- The subdirectory sequence returned by `_scan_dir` is parent-before-child
ordered. -/
theorem scanDir_ordered (fs : FS) (hWF : FS.WF fs) (dir_path rel_to : Path)
    {res : List Path × List Path} (h : scanDir fs dir_path rel_to = .ok res) :
    Ordered res.2 := by
  unfold scanDir at h
  cases hsc : scanChildren fs rel_to dir_path with
  | error e => rw [hsc] at h; cases h
  | ok pr =>
    obtain ⟨f0, d0⟩ := pr
    rw [hsc] at h
    have hsh := scanChildren_shape fs hWF rel_to dir_path hsc
    apply scanLoop_ordered fs hWF rel_to _ _ _ _ ?inv res h
    case inv =>
      refine ⟨by simpa using hsh.2, ?_, ?_⟩
      · unfold Ordered
        simp only [List.nil_append]
        apply List.pairwise_of_forall_mem_list
        intro a ha b hb hpre
        obtain ⟨n1, hn1⟩ := hsh.1 a ha
        obtain ⟨n2, hn2⟩ := hsh.1 b hb
        exact isPre_eq_of_length hpre (by rw [hn1, hn2]; simp)
      · intro t ht u hu hpre
        simp only [List.nil_append] at hu
        obtain ⟨n1, hn1⟩ := hsh.1 t ht
        obtain ⟨n2, hn2⟩ := hsh.1 u hu
        exact isPre_eq_of_length hpre (by rw [hn1, hn2]; simp)

/-- Specification of the ancestor walk: the collected parents are exactly the
new ancestors of `d` (deepest first, strictly decreasing in length), the set
grows by exactly those parents, and the walk is dirname-closed up to its stop
point. -/
theorem ancWalkF_spec :
    ∀ (n : Nat) (sset : List Path) (d : Path), d.length < n →
      (∀ p, p ∈ (ancWalkF n sset d).2 ↔ p ∈ (ancWalkF n sset d).1 ∨ p ∈ sset) ∧
      (∀ p ∈ (ancWalkF n sset d).1, isPre p d = true ∧ p ≠ [] ∧ p ∉ sset) ∧
      ((ancWalkF n sset d).1.Pairwise (fun a b => b.length < a.length)) ∧
      (∀ p ∈ (ancWalkF n sset d).1,
        p.dropLast = [] ∨ p.dropLast ∈ (ancWalkF n sset d).1 ∨ p.dropLast ∈ sset) := by
  intro n
  induction n with
  | zero =>
    intro sset d h
    exact absurd h (by omega)
  | succ n ih =>
    intro sset d hlt
    by_cases hg : d = [] ∨ d ∈ sset
    · simp only [ancWalkF, if_pos hg]
      exact ⟨by simp, by simp, by simp, by simp⟩
    · have hdne : d ≠ [] := fun h => hg (Or.inl h)
      have hdnot : d ∉ sset := fun h => hg (Or.inr h)
      have hdpos : 0 < d.length := List.length_pos.mpr hdne
      have hdl : d.dropLast.length < n := by
        have := List.length_dropLast d
        omega
      obtain ⟨ihm, ihp, ihpw, ihcl⟩ := ih (d :: sset) d.dropLast hdl
      simp only [ancWalkF, if_neg hg]
      refine ⟨?_, ?_, ?_, ?_⟩
      · intro p
        simp only [ihm p, List.mem_cons]
        tauto
      · intro p hpm
        rcases List.mem_cons.mp hpm with he | hm
        · exact ⟨by rw [he]; exact isPre_refl d, by rw [he]; exact hdne,
                 by rw [he]; exact hdnot⟩
        · obtain ⟨h1, h2, h3⟩ := ihp p hm
          exact ⟨isPre_of_isPre_dropLast h1, h2, fun hc => h3 (by simp [hc])⟩
      · rw [List.pairwise_cons]
        refine ⟨?_, ihpw⟩
        intro b hb
        have := (ihp b hb).1
        have hblen := isPre_length this
        have := List.length_dropLast d
        omega
      · intro p hpm
        rcases List.mem_cons.mp hpm with he | hm
        · subst he
          obtain ⟨m, rfl⟩ : ∃ m, n = m + 1 := ⟨n - 1, by omega⟩
          by_cases hg2 : p.dropLast = [] ∨ p.dropLast ∈ p :: sset
          · rcases hg2 with h0 | hmem
            · exact Or.inl h0
            · rcases List.mem_cons.mp hmem with he2 | hs
              · have := List.length_dropLast p
                have := congrArg List.length he2
                simp at this
                omega
              · exact Or.inr (Or.inr hs)
          · refine Or.inr (Or.inl ?_)
            simp only [ancWalkF, if_neg hg2]
            simp
        · rcases ihcl p hm with h0 | hmm | hss
          · exact Or.inl h0
          · exact Or.inr (Or.inl (by simp [hmm]))
          · rcases List.mem_cons.mp hss with he2 | hs
            · obtain ⟨h1, h2, _⟩ := ihp p hm
              have hl1 := isPre_length h1
              have hl2 := List.length_dropLast d
              have hl3 := List.length_dropLast p
              have hl4 : 0 < p.length := List.length_pos.mpr h2
              have := congrArg List.length he2
              omega
            · exact Or.inr (Or.inr hs)

/-- A dirname-closed list contains every nonempty strict ancestor of each of
its members. -/
theorem mem_of_anc_closed {put : List Path}
    (hcl : ∀ p ∈ put, p.dropLast = [] ∨ p.dropLast ∈ put) :
    ∀ (n : Nat) (p : Path), p.length ≤ n → p ∈ put →
      ∀ a, isPre a p = true → a ≠ [] → a ≠ p → a ∈ put := by
  intro n
  induction n with
  | zero =>
    intro p hl hp a hpre hane hanep
    have hp0 : p = [] := List.eq_nil_of_length_eq_zero (Nat.le_zero.mp hl)
    rw [hp0] at hpre
    exact absurd (isPre_nil_right hpre) hane
  | succ n ih =>
    intro p hl hp a hpre hane hanep
    have hpd : isPre a p.dropLast = true := isPre_dropLast hpre hanep
    rcases hcl p hp with h0 | hmem
    · rw [h0] at hpd
      exact absurd (isPre_nil_right hpd) hane
    · by_cases he : a = p.dropLast
      · rw [he]; exact hmem
      · have hp0 : p ≠ [] := by
          intro h
          rw [h] at hpre
          exact hane (isPre_nil_right hpre)
        have hplen : 0 < p.length := List.length_pos.mpr hp0
        have hdl := List.length_dropLast p
        exact ih p.dropLast (by omega) hmem a hpd hane he

/-- The ancestor walk preserves the resolver invariant, appending the
reversed parents (shallowest first) to `put_subdirs`. -/
theorem ancInv_step {put sset : List Path} (hinv : AncInv put sset) (x : Path) :
    AncInv (put ++ (ancWalk sset x.dropLast).1.reverse) (ancWalk sset x.dropLast).2 := by
  obtain ⟨hord, hiff, hne, hcl⟩ := hinv
  obtain ⟨hm, hp, hpw, hclw⟩ :=
    ancWalkF_spec (x.dropLast.length + 1) sset x.dropLast (by omega)
  have hwEq : ancWalkF (x.dropLast.length + 1) sset x.dropLast = ancWalk sset x.dropLast := rfl
  rw [hwEq] at hm hp hpw hclw
  refine ⟨?_, ?_, ?_, ?_⟩
  · unfold Ordered
    rw [List.pairwise_append]
    refine ⟨hord, ?_, ?_⟩
    · rw [List.pairwise_reverse]
      apply List.Pairwise.imp ?imp hpw
      case imp =>
        intro a b hab hpre
        have := isPre_length hpre
        omega
    · intro u hu q hq hpre
      have hq1 := List.mem_reverse.mp hq
      obtain ⟨_, hqne, hqnot⟩ := hp q hq1
      by_cases he : q = u
      · exact he
      · have : q ∈ put :=
          mem_of_anc_closed hcl u.length u (le_refl _) hu q hpre hqne he
        exact absurd ((hiff q).mpr this) hqnot
  · intro p
    rw [List.mem_append, List.mem_reverse, hm p, hiff p]
    tauto
  · intro p hpm
    rcases List.mem_append.mp hpm with h1 | h1
    · exact hne p h1
    · exact (hp p (List.mem_reverse.mp h1)).2.1
  · intro p hpm
    rcases List.mem_append.mp hpm with h1 | h1
    · rcases hcl p h1 with h0 | h2
      · exact Or.inl h0
      · exact Or.inr (List.mem_append.mpr (Or.inl h2))
    · rcases hclw p (List.mem_reverse.mp h1) with h0 | h2 | h2
      · exact Or.inl h0
      · exact Or.inr (List.mem_append.mpr (Or.inr (List.mem_reverse.mpr h2)))
      · exact Or.inr (List.mem_append.mpr (Or.inl ((hiff _).mp h2)))

/-- The fold of `_scan_from_list` preserves the resolver invariant. -/
theorem scanFromList_anc (fs : FS) (wd : Path) :
    ∀ (l : List Path) (S0 : FileSet) (ss0 : List Path),
      AncInv S0.put_subdirs ss0 →
      AncInv (l.foldl (scanFromListStep fs wd) (S0, ss0)).1.put_subdirs
             (l.foldl (scanFromListStep fs wd) (S0, ss0)).2 := by
  intro l
  induction l with
  | nil => intro S0 ss0 h; exact h
  | cons x xs ih =>
    intro S0 ss0 h
    rw [List.foldl_cons]
    have hstep : (scanFromListStep fs wd (S0, ss0) x).1.put_subdirs
          = S0.put_subdirs ++ (ancWalk ss0 x.dropLast).1.reverse
        ∧ (scanFromListStep fs wd (S0, ss0) x).2 = (ancWalk ss0 x.dropLast).2 := by
      unfold scanFromListStep
      by_cases h1 : fs.isdir (srcPathOfRel wd x) = true
      · simp [h1]
      · by_cases h2 : fs.existsPath (srcPathOfRel wd x) = true
        · simp [h1, h2]
        · simp [h1, h2]
    have hinv2 : AncInv (scanFromListStep fs wd (S0, ss0) x).1.put_subdirs
        (scanFromListStep fs wd (S0, ss0) x).2 := by
      rw [hstep.1, hstep.2]
      exact ancInv_step h x
    have := ih (scanFromListStep fs wd (S0, ss0) x).1 (scanFromListStep fs wd (S0, ss0) x).2 hinv2
    simpa using this

/-- The `put_subdirs` sequence produced by explicit-list resolution is
parent-before-child ordered. -/
theorem scanFromList_put_subdirs_ordered (fs : FS) (wd : Path) (l : List Path) :
    Ordered (scanFromList fs wd l).put_subdirs := by
  unfold scanFromList
  refine (scanFromList_anc fs wd l ⟨[], [], [], [], true⟩ [] ?init).1
  exact ⟨List.Pairwise.nil, by simp, by simp, by simp⟩

/-- C3: every directory sequence produced by the tree scanner's worklist scan
or by the explicit-list resolver's ancestor walk is parent-before-child
ordered: no element appearing at or after a directory is a strict ancestor
of it, so every ancestor present in the sequence appears strictly earlier. -/
theorem putconf_C3_parent_before_child (fs : FS) (hWF : FS.WF fs)
    (dir_path rel_to : Path) (res : List Path × List Path)
    (hscan : scanDir fs dir_path rel_to = .ok res)
    (wd : Path) (l : List Path) :
    Ordered res.2 ∧ Ordered (scanFromList fs wd l).put_subdirs :=
  ⟨scanDir_ordered fs hWF dir_path rel_to hscan,
   scanFromList_put_subdirs_ordered fs wd l⟩

/-- Witness for C3: the concrete scan of `c4fs` and a concrete explicit-list
resolution are both parent-before-child ordered. -/
theorem putconf_C3_witness :
    (FS.WF c4fs ∧
     scanDir c4fs [] ["s"]
       = .ok ([["a", "b.txt"], [".dotfiles", "c.txt"]], [["a"], [".dotfiles"]])) ∧
    (Ordered [["a"], [".dotfiles"]] ∧
     Ordered (scanFromList c4fs ["s"] [["a", "b.txt"]]).put_subdirs) :=
  ⟨⟨by decide, rfl⟩,
   putconf_C3_parent_before_child c4fs (by decide) [] ["s"]
     ([["a", "b.txt"], [".dotfiles", "c.txt"]], [["a"], [".dotfiles"]]) rfl
     ["s"] [["a", "b.txt"]]⟩

end Putconf
